import Mathlib

/-!
# A verification development for the Yooz conversational-script engine

This file gives a shallow embedding, in Lean 4, of the Yooz parser/response
engine (`src/main.py`, class `YoozParser`) and settles a list of claims about
it.  Strings are modelled as `List Char`; the Python regular expressions that
the source uses are modelled by two small executable matching engines, one for
the anchored matchers produced by `_create_regex` and one for the scanning
(`finditer`/`findall`/`search`) extraction passes of `parse`.  Python `dict`s
are modelled as insertion-ordered association lists whose update replaces the
value at an existing key in place.  The `random.choice` capability is an
explicit functional parameter.  All definitions are executable.

Modelling conventions (stated once here):
* text is `List Char`; a Python byte/char index is a list index;
* the Python regex `$` is modelled as end of string (the trailing-newline
  allowance of Python's `$` is not modelled; no string handled by the
  development ends in a newline);
* `\w` is modelled as ASCII letters, digits and the underscore (the scripts
  and keys treated in this development are ASCII);
* `float` literals parsed from the script are modelled as rationals.
-/

set_option maxHeartbeats 4000000
set_option maxRecDepth 8000

namespace Yooz

/-- Text, modelled as a list of characters. -/
abbrev Str := List Char

/-- The characters of a Lean string literal (helper used pervasively). -/
def chars (s : String) : Str := s.data

/-- Python whitespace (the default class of `str.strip`/`str.split` and the
regex class `\s`, restricted to the ASCII range used here). -/
def pySpace (c : Char) : Bool :=
  c = ' ' ∨ c = '\t' ∨ c = '\n' ∨ c = '\r' ∨ c = '\x0b' ∨ c = '\x0c'

/-- The regex class `\w` (ASCII fragment): letters, digits, underscore. -/
def wordChar (c : Char) : Bool :=
  ('a' ≤ c ∧ c ≤ 'z') ∨ ('A' ≤ c ∧ c ≤ 'Z') ∨ ('0' ≤ c ∧ c ≤ '9') ∨ c = '_'

/-- The regex class `\d`. -/
def digitChar (c : Char) : Bool := '0' ≤ c ∧ c ≤ '9'

/-- Python `str.strip()`: drop whitespace from both ends. -/
def pyStrip (s : Str) : Str :=
  ((s.dropWhile pySpace).reverse.dropWhile pySpace).reverse

/-- Python `str.split(sep)` for a one-character separator: keeps empty pieces
and always returns at least one piece. -/
def splitOnChar (sep : Char) : Str → List Str
  | [] => [[]]
  | c :: t =>
    let r := splitOnChar sep t
    if c = sep then [] :: r
    else match r with
      | [] => [[c]]
      | p :: ps => (c :: p) :: ps

/-- Python `str.split()` (no argument): split on whitespace runs, no empty
pieces. -/
def pySplitWs : Str → List Str
  | [] => []
  | c :: t =>
    if pySpace c then pySplitWs t
    else match pySplitWs t with
      | [] => [[c]]
      | p :: ps =>
        match t with
        | [] => [[c]]
        | d :: _ => if pySpace d then [c] :: p :: ps else (c :: p) :: ps

/-- Python `sep.join(pieces)`. -/
def joinWith (sep : Str) : List Str → Str
  | [] => []
  | [p] => p
  | p :: ps => p ++ sep ++ joinWith sep ps

/-- Fuelled core of `strReplace`. -/
def strReplaceF (old new : Str) : Nat → Str → Str
  | 0, s => s
  | _ + 1, [] => []
  | fu + 1, s@(c :: t) =>
    if old ≠ [] ∧ old.isPrefixOf s then new ++ strReplaceF old new fu (s.drop old.length)
    else c :: strReplaceF old new fu t

/-- Python `str.replace(old, new)`: replace all non-overlapping occurrences,
left to right.  (The Python corner case of an empty `old` is never exercised
by the source: the replaced keys `&name` and `*i` are nonempty.) -/
def strReplace (s old new : Str) : Str := strReplaceF old new (s.length + 1) s

/-- Index of the first occurrence of `needle` in `hay` (Python `str.find`,
restricted to the found case; the empty needle occurs at index 0). -/
def firstOccurIdx (needle : Str) : Str → Option Nat
  | [] => if needle.isPrefixOf ([] : Str) then some 0 else none
  | s@(_ :: t) =>
    if needle.isPrefixOf s then some 0
    else (firstOccurIdx needle t).map (· + 1)

/-- Python `needle in hay` substring containment. -/
def containsSub (needle hay : Str) : Bool := (firstOccurIdx needle hay).isSome

/-- Lookup in an insertion-ordered association list (Python `dict.get`). -/
def lookupA {α : Type} : List (Str × α) → Str → Option α
  | [], _ => none
  | (k, v) :: t, k' => if k' = k then some v else lookupA t k'

/-- Update `d[k] = v` on an insertion-ordered association list: replace the value at
the first occurrence of the key in place, else append (Python dict update,
which keeps the insertion position of an existing key). -/
def setKey {α : Type} : List (Str × α) → Str → α → List (Str × α)
  | [], k, v => [(k, v)]
  | (k1, v1) :: t, k, v =>
    if k1 = k then (k, v) :: t else (k1, v1) :: setKey t k v

/-- Fold a list of updates into an association list. -/
def setAll {α : Type} (d : List (Str × α)) (ps : List (Str × α)) : List (Str × α) :=
  ps.foldl (fun m p => setKey m p.1 p.2) d

/-!
## The anchored matchers produced by `_create_regex`

`_create_regex` builds the regex string `'^' ++ body ++ '$'` where `body` is
the author pattern with every `&category` textually replaced by an alternation
`(item1|item2|...)` and every `*` (with trailing digits) replaced by `(.*?)`,
and matches it with `re.Pattern.match`.  Thanks to the anchors this is a
full-string match.  We interpret the generated regex string with a small
backtracking engine whose constructs are exactly those that can occur in a
generated body: literal characters, `.`, bracket classes, alternation groups
of literal words, and the lazy capturing wildcard `(.*?)`. -/

/-- One construct of a generated matcher body. -/
inductive RItem where
  | lit (c : Char)
  | dotc
  | bcls (neg : Bool) (cs : List Char)
  | alts (xs : List Str)
  | wild
  deriving Repr, DecidableEq

mutual

/-- Full-string matching of an item list against a message, returning the list
of captured groups in group order.  Alternatives of a group and the extensions
of a lazy wildcard are tried in the backtracking order of Python's engine:
alternatives left to right, wildcard shortest first.  `.` does not match a
newline (the source compiles message patterns without `re.DOTALL`).  The `Nat`
argument is fuel (so that the definitions compute by structural recursion);
the wrapper `rItemsMatch` below supplies provably sufficient fuel. -/
def rItemsMatchF : Nat → List RItem → Str → Option (List Str)
  | 0, _, _ => none
  | _ + 1, [], s => if s.isEmpty then some [] else none
  | fu + 1, .lit c :: rest, s =>
    (match s with
     | [] => none
     | d :: ds => if d = c then rItemsMatchF fu rest ds else none)
  | fu + 1, .dotc :: rest, s =>
    (match s with
     | [] => none
     | d :: ds => if d = '\n' then none else rItemsMatchF fu rest ds)
  | fu + 1, .bcls neg cs :: rest, s =>
    (match s with
     | [] => none
     | d :: ds => if (cs.contains d) ≠ neg then rItemsMatchF fu rest ds else none)
  | fu + 1, .alts xs :: rest, s => tryAltsF fu rest xs s
  | fu + 1, .wild :: rest, s => tryWildF fu rest [] s

/-- Try the alternatives of a group in order; the first one that lets the rest
of the match succeed wins and is the group's capture. -/
def tryAltsF : Nat → List RItem → List Str → Str → Option (List Str)
  | 0, _, _, _ => none
  | _ + 1, _, [], _ => none
  | fu + 1, rest, x :: xs, s =>
    if x.isPrefixOf s then
      match rItemsMatchF fu rest (s.drop x.length) with
      | some caps => some (x :: caps)
      | none => tryAltsF fu rest xs s
    else tryAltsF fu rest xs s

/-- Lazy wildcard: capture the shortest span (starting from `acc`) after which
the rest of the items match the remaining text.  The span may not cross a
newline: the generated group is `(.*?)` and the source compiles message
patterns without `re.DOTALL`. -/
def tryWildF : Nat → List RItem → Str → Str → Option (List Str)
  | 0, _, _, _ => none
  | fu + 1, rest, acc, s =>
    match rItemsMatchF fu rest s with
    | some caps => some (acc :: caps)
    | none =>
      match s with
      | [] => none
      | c :: s' => if c = '\n' then none else tryWildF fu rest (acc ++ [c]) s'

end

/-- A fuel bound sufficient for `rItemsMatchF` to run to completion: the
recursion never nests deeper than one fuel unit per item, per alternative of
an alternation, and per character of the text, with slack. -/
def rItemsFuel (items : List RItem) (s : Str) : Nat :=
  (items.foldl
    (fun a i => a + (match i with | RItem.alts xs => xs.length + 2 | _ => 2)) 1 + 1)
    * (s.length + 2)

/-- Full-string matching with sufficient fuel. -/
def rItemsMatch (items : List RItem) (s : Str) : Option (List Str) :=
  rItemsMatchF (rItemsFuel items s) items s

/-- Split at the first occurrence of `c`: content before it and rest after it. -/
def splitAtChar (c : Char) : Str → Option (Str × Str)
  | [] => none
  | d :: t =>
    if d = c then some ([], t)
    else (splitAtChar c t).map (fun p => (d :: p.1, p.2))

/-- Fuelled reading of a generated matcher body into items.  `(` opens a group
running to the next `)`: the group is the lazy wildcard if its content is
`.*?`, else an alternation of the `|`-separated literal alternatives.  `[`
opens a bracket class running to the next `]` (leading `^` negates).  `.` is
the any-but-newline class; any other character stands for itself.  (Generated
bodies contain no nested groups.) -/
def readItemsF : Nat → Str → List RItem
  | 0, _ => []
  | _ + 1, [] => []
  | fu + 1, '(' :: t =>
    (match splitAtChar ')' t with
     | some (content, rest) =>
       (if content = chars ".*?" then RItem.wild
        else RItem.alts (splitOnChar '|' content)) :: readItemsF fu rest
     | none => RItem.lit '(' :: readItemsF fu t)
  | fu + 1, '[' :: t =>
    (match splitAtChar ']' t with
     | some (content, rest) =>
       (match content with
        | '^' :: cs => RItem.bcls true cs
        | cs => RItem.bcls false cs) :: readItemsF fu rest
     | none => RItem.lit '[' :: readItemsF fu t)
  | fu + 1, '.' :: t => RItem.dotc :: readItemsF fu t
  | fu + 1, c :: t => RItem.lit c :: readItemsF fu t

/-- Read a generated matcher body into items. -/
def readItems (s : Str) : List RItem := readItemsF (s.length + 1) s

/-- Fuelled core of `starSub`. -/
def starSubF : Nat → Str → Str
  | 0, s => s
  | _ + 1, [] => []
  | fu + 1, '*' :: t => chars "(.*?)" ++ starSubF fu (t.dropWhile digitChar)
  | fu + 1, c :: t => c :: starSubF fu t

/-- Substitute `*` followed by optional digits with the lazy capturing
wildcard (the source's `re.sub(r'\*([0-9]*)', r'(.*?)', pattern)`). -/
def starSub (s : Str) : Str := starSubF (s.length + 1) s

/-- The regex string built by `_create_regex`: every `&category` replaced by
an alternation of the category's items, `*` (with trailing digits) replaced by
`(.*?)`, anchored by `^`/`$`. -/
def createRegexStr (cats : List (Str × List Str)) (pattern : Str) : Str :=
  let p1 := cats.foldl
    (fun p c => strReplace p ('&' :: c.1) ('(' :: joinWith (chars "|") c.2 ++ [')'])) pattern
  '^' :: starSub p1 ++ ['$']

/-- Drop the `^`/`$` anchors of a generated regex string. -/
def stripAnchors (s : Str) : Str :=
  match s with
  | '^' :: t => if t.getLast? = some '$' then t.dropLast else t
  | t => t

/-- Matching of a user message against an author pattern, as performed by
`self._create_regex(pattern).match(message)`: anchored full-string matching of
the read body (capture list on success). -/
def regexMatch (cats : List (Str × List Str)) (pattern msg : Str) : Option (List Str) :=
  rItemsMatch (readItems (stripAnchors (createRegexStr cats pattern))) msg

/-!
## Response resolution (`_resolve_response`) and rule injection
-/

/-- Decimal digit character of a value `< 10`. -/
def digitOfNat : Nat → Char
  | 0 => '0' | 1 => '1' | 2 => '2' | 3 => '3' | 4 => '4'
  | 5 => '5' | 6 => '6' | 7 => '7' | 8 => '8' | _ => '9'

/-- Fuelled digit accumulation. -/
def natDigitsF : Nat → Nat → Str → Str
  | 0, _, acc => acc
  | fu + 1, n, acc =>
    if n < 10 then digitOfNat n :: acc
    else natDigitsF fu (n / 10) (digitOfNat (n % 10) :: acc)

/-- Decimal digits of a natural number (Python `str(i)` for `i ≥ 0`). -/
def natToStr (n : Nat) : Str := natDigitsF (n + 1) n []

/-- The positional pass of `_resolve_response`: for `i` from 1 to the number
of capture groups, replace every `*i` with the `i`-th capture, stripped. -/
def replaceStars (groups : List Str) (template : Str) : Str :=
  (List.range groups.length).foldl
    (fun r i => strReplace r ('*' :: natToStr (i + 1)) (pyStrip ((groups.get? i).getD [])))
    template

/-- The visible sentinel rendered for a variable whose stored value is missing
or falsy: `{missing:key}`. -/
def missingFor (k : Str) : Str := chars "\x7bmissing:" ++ k ++ chars "\x7d"

/-- The replacement function of the variable passes: the stored value if it is
truthy (present and nonempty), else the sentinel. -/
def lookupVarRepl (mem : List (Str × Str)) (k : Str) : Str :=
  match lookupA mem k with
  | some v => if v = [] then missingFor k else v
  | none => missingFor k

/-- Fuelled scanner for `re.sub(r'=(\w+):\S+', replace_variable, s)`: at each
`=` followed by a nonempty word-character run, a `:` and a nonempty
non-whitespace run, emit the replacement for the key and continue after the
consumed text; anything else is copied. -/
def subVarColonF (mem : List (Str × Str)) : Nat → Str → Str
  | 0, s => s
  | _ + 1, [] => []
  | fu + 1, c :: t =>
    if c = '=' then
      (let k := t.takeWhile wordChar
       let r1 := t.dropWhile wordChar
       if k = [] then '=' :: subVarColonF mem fu t
       else
         match r1 with
         | ':' :: r2 =>
           let v := r2.takeWhile (fun ch => ¬ pySpace ch)
           let r3 := r2.dropWhile (fun ch => ¬ pySpace ch)
           if v = [] then '=' :: subVarColonF mem fu t
           else lookupVarRepl mem k ++ subVarColonF mem fu r3
         | _ => '=' :: subVarColonF mem fu t)
    else c :: subVarColonF mem fu t

/-- Fuelled scanner for `re.sub(r'=(\w+)', replace_variable, s)`. -/
def subVarPlainF (mem : List (Str × Str)) : Nat → Str → Str
  | 0, s => s
  | _ + 1, [] => []
  | fu + 1, c :: t =>
    if c = '=' then
      (let k := t.takeWhile wordChar
       let r1 := t.dropWhile wordChar
       if k = [] then '=' :: subVarPlainF mem fu t
       else lookupVarRepl mem k ++ subVarPlainF mem fu r1)
    else c :: subVarPlainF mem fu t

/-- Fuelled scanner for the definition pass
`re.sub(r'#(\S+)', lambda m: definitions.get(m.group(1), m.group(0)), s)`:
at each `#` followed by a nonempty non-whitespace run, emit the stored
definition if the key is present, else the whole matched token unchanged. -/
def subDefF (defs : List (Str × Str)) : Nat → Str → Str
  | 0, s => s
  | _ + 1, [] => []
  | fu + 1, c :: t =>
    if c = '#' then
      (let k := t.takeWhile (fun ch => ¬ pySpace ch)
       let r1 := t.dropWhile (fun ch => ¬ pySpace ch)
       if k = [] then '#' :: subDefF defs fu t
       else ((lookupA defs k).getD ('#' :: k)) ++ subDefF defs fu r1)
    else c :: subDefF defs fu t

/-- The variable pass on `=key:value` tokens. -/
def subVarColon (mem : List (Str × Str)) (s : Str) : Str :=
  subVarColonF mem (s.length + 1) s

/-- The variable pass on `=key` tokens. -/
def subVarPlain (mem : List (Str × Str)) (s : Str) : Str :=
  subVarPlainF mem (s.length + 1) s

/-- The definition pass on `#key` tokens. -/
def subDef (defs : List (Str × Str)) (s : Str) : Str :=
  subDefF defs (s.length + 1) s

/-- Model of `_resolve_response`: the positional pass, then the two variable passes,
then the definition pass, each once and in this order. -/
def resolveResponse (defs mem : List (Str × Str)) (groups : List Str)
    (template : Str) : Str :=
  subDef defs (subVarPlain mem (subVarColon mem (replaceStars groups template)))

/-- One supplementary rule: threshold, trigger substring, injected text. -/
structure Rule where
  rule : ℚ
  trigger : Str
  response : Str
  deriving Repr, DecidableEq

/-- One step of the rule-injection loop of `_process_normal_pattern` (and of
the keyword branches): if the trigger occurs in the current response and the
maturity level `rules_value` is at most the rule's threshold, insert a space
and the rule's text immediately after the first occurrence of the trigger. -/
def injectOne (rv : ℚ) (resp : Str) (r : Rule) : Str :=
  if containsSub r.trigger resp then
    if rv ≤ r.rule then
      let idx := (firstOccurIdx r.trigger resp).getD 0 + r.trigger.length
      resp.take idx ++ ' ' :: r.response ++ resp.drop idx
    else resp
  else resp

/-- The full rule-injection loop: the rules in registration order, each step
reading the text mutated by the previous steps. -/
def injectRules (rv : ℚ) (rules : List Rule) (resp : Str) : Str :=
  rules.foldl (injectOne rv) resp

/-!
## The engine state and the per-turn response generation
-/

/-- A pattern entry of `self.patterns`.  The source stores dictionaries and
discriminates on the presence of the keys `'user_pattern'` (normal entry) and
`'pattern'` (conditional entry); we tag the two shapes. -/
inductive Pat where
  | normal (user_pattern : Str) (bot_responses : List Str)
  | conditional (pattern : Str) (main_condition : Option Str) (main_response : Str)
      (optional_condition : Option Str) (optional_response : Option Str)
      (default_response : Str)
  deriving Repr, DecidableEq

/-- A nested-dialog table entry's payload. -/
structure NestedData where
  responses : List Str
  nested_patterns : List (Str × List Str)
  deriving Repr, DecidableEq

/-- The mutable state of a `YoozParser` instance. -/
structure YoozState where
  patterns : List Pat := []
  definitions : List (Str × Str) := []
  stopWords : List Str := []
  categories : List (Str × List Str) := []
  global_responses : List Str := []
  replacements : List (Str × Str) := []
  rules : List Rule := []
  additional_response : Str := []
  rules_value : ℚ := 0
  memory : List (Str × Str) := []
  nested_messages : List (Str × NestedData) := []
  message_history : List Str := []
  last_message : Str := []
  deriving Repr, DecidableEq

/-- The state of a freshly constructed `YoozParser`. -/
def initState : YoozState := {}

/-- Fuelled whole-word substitution for one replacement pair:
`re.sub(rf'\b\{re.escape(source)\}\b', target, message)`.  `src` matches at a
position exactly when it occurs literally there and both ends sit on a `\w` /
non-`\w` boundary of the message (`prev` is the character before the current
position, if any). -/
def subWordAllF (src tgt : Str) : Nat → Option Char → Str → Str
  | 0, _, s => s
  | _ + 1, _, [] => []
  | fu + 1, prev, s@(c :: t) =>
    if src ≠ [] ∧ src.isPrefixOf s
        ∧ ((match prev with | none => false | some p => wordChar p)
            ≠ wordChar (src.headI))
        ∧ (wordChar (src.getLastI)
            ≠ (match s.drop src.length with | [] => false | d :: _ => wordChar d)) then
      tgt ++ subWordAllF src tgt fu (some src.getLastI) (s.drop src.length)
    else c :: subWordAllF src tgt fu (some c) t

/-- Model of `_process_replacements`: the replacement pairs applied in registration
order, each as a whole-word substitution over the current message. -/
def processReplacements (reps : List (Str × Str)) (msg : Str) : Str :=
  reps.foldl (fun m p => subWordAllF p.1 p.2 (m.length + 1) none m) msg

/-- Model of `_remove_stop_words`: split the message on whitespace, drop tokens that
equal a stopword, join with single spaces. -/
def removeStopWords (stops : List Str) (msg : Str) : Str :=
  joinWith [' '] ((pySplitWs msg).filter (fun w => ¬ w ∈ stops))

/-- Modelled from Python semantics of the builtin `eval`, as invoked by
`_evaluate_condition` on the resolved condition text: the boolean literals
evaluate to themselves, and a plain identifier that is not bound in the
module's global scope (`re`, `random`, `Optional`, `YoozParser`) raises
`NameError`.  Python builtins and other expression forms are outside the
modelled fragment (no condition handled in this development needs them);
they map to an explicit marker. -/
def pyEval (s : Str) : Except Str Bool :=
  if s = chars "True" then .ok true
  else if s = chars "False" then .ok false
  else if s ≠ [] ∧ s.all wordChar ∧ ¬ digitChar s.headI
      ∧ ¬ s ∈ [chars "re", chars "random", chars "Optional", chars "YoozParser"] then
    .error (chars "NameError: name " ++ s ++ chars " is not defined")
  else .error (chars "eval: expression outside the modelled fragment")

/-- Model of `_evaluate_condition`: resolve the condition text like a response, then
evaluate it.  A `None` condition crashes inside `_resolve_response`
(`None.replace`), modelled as an error. -/
def evalCondition (st : YoozState) (groups : List Str) : Option Str → Except Str Bool
  | none => .error (chars "AttributeError: NoneType has no attribute replace")
  | some c => pyEval (resolveResponse st.definitions st.memory groups c)

/-- Model of `_process_conditional_pattern`: on a match, return the main response if
the main condition holds, else the optional response if an optional condition
is present (truthy) and holds, else the default response; no match yields
`none`.  Exceptions from condition evaluation propagate. -/
def processConditionalPattern (st : YoozState) (pp : Str) (mc : Option Str)
    (mr : Str) (oc : Option Str) (orsp : Option Str) (dr : Str)
    (cleaned : Str) : Except Str (Option Str) :=
  match regexMatch st.categories pp cleaned with
  | none => .ok none
  | some groups => do
    let b ← evalCondition st groups mc
    if b then
      .ok (some (resolveResponse st.definitions st.memory groups mr))
    else
      match oc with
      | some c =>
        if c ≠ [] then do
          let b2 ← evalCondition st groups (some c)
          if b2 then
            match orsp with
            | some r => .ok (some (resolveResponse st.definitions st.memory groups r))
            | none => .error (chars "TypeError: optional response is None")
          else .ok (some (resolveResponse st.definitions st.memory groups dr))
        else .ok (some (resolveResponse st.definitions st.memory groups dr))
      | none => .ok (some (resolveResponse st.definitions st.memory groups dr))

/-- Model of `_process_normal_pattern`: on a match, a chosen response resolved and then
rule-injected; `none` on no match. -/
def processNormalPattern (choice : List Str → Str) (st : YoozState)
    (up : Str) (brs : List Str) (cleaned : Str) : Option Str :=
  (regexMatch st.categories up cleaned).map fun groups =>
    injectRules st.rules_value st.rules
      (resolveResponse st.definitions st.memory groups (choice brs))

/-- Model of `_process_nested_messages`: only the first nested-dialog entry is ever
inspected (the loop body ends in `return None`).  For it: if the parent
trigger matches `last_message`, a parent response is returned when it also
matches the cleaned message; otherwise, with at least two history entries and
the entry two turns back equal to the parent trigger, the first child pattern
matching the cleaned message returns a child response.  A returned response
also overwrites `last_message` with the cleaned message; the second component
is the resulting `last_message`. -/
def processNested (choice : List Str → Str) (st : YoozState) (cleaned : Str) :
    Option Str × Str :=
  match st.nested_messages with
  | [] => (none, st.last_message)
  | (pt, nd) :: _ =>
    if (regexMatch st.categories pt st.last_message).isSome then
      if (regexMatch st.categories pt cleaned).isSome then
        (some (choice nd.responses), cleaned)
      else (none, st.last_message)
    else if st.message_history.length ≥ 2
        ∧ st.message_history.get? (st.message_history.length - 2) = some pt then
      match nd.nested_patterns.find?
          (fun np => (regexMatch st.categories np.1 cleaned).isSome) with
      | some np => (some (choice np.2), cleaned)
      | none => (none, st.last_message)
    else (none, st.last_message)

/-- The first `\{...\}` group of a user pattern: `re.findall(r'\{(.*?)\}', up)[0]`,
`none` when the list is empty (in which case the source raises `IndexError`).
The leftmost match starts at the first `\x7b` that is followed by some
`\x7d`; its group runs to the next `\x7d`. -/
def firstBraceGroup : Str → Option Str
  | [] => none
  | '\x7b' :: t =>
    (match splitAtChar '\x7d' t with
     | some (content, _) => some content
     | none => firstBraceGroup t)
  | _ :: t => firstBraceGroup t

/-- The keyword section of `get_response` (lines 72–86): for every normal
pattern whose user pattern contains both braces, read the first brace group;
comma-separated keywords must all occur in the cleaned message,
underscore-separated keywords need one occurrence; a satisfied group appends a
chosen response plus a space and rule-injects the whole accumulated text.  A
brace pair that yields no `findall` match raises `IndexError`. -/
def keywordPass (choice : List Str → Str) (st : YoozState) (cleaned : Str) :
    List Pat → Str → Except Str Str
  | [], f => .ok f
  | .conditional _ _ _ _ _ _ :: rest, f => keywordPass choice st cleaned rest f
  | .normal up brs :: rest, f =>
    if '\x7b' ∈ up ∧ '\x7d' ∈ up then
      match firstBraceGroup up with
      | none => .error (chars "IndexError: list index out of range")
      | some kws =>
        if '،' ∈ kws ∧ '_' ∈ kws then keywordPass choice st cleaned rest f
        else if '،' ∈ kws then
          keywordPass choice st cleaned rest
            (if (splitOnChar '،' kws).all (fun k => containsSub k cleaned) then
              injectRules st.rules_value st.rules (f ++ choice brs ++ [' '])
             else f)
        else if '_' ∈ kws then
          keywordPass choice st cleaned rest
            (if (splitOnChar '_' kws).any (fun k => containsSub k cleaned) then
              injectRules st.rules_value st.rules (f ++ choice brs ++ [' '])
             else f)
        else keywordPass choice st cleaned rest f
    else keywordPass choice st cleaned rest f

/-- Outcome of one pass of the `for pattern in self.patterns` loop. -/
inductive ScanOut where
  | retr (r : Str)
  | errv (e : Str)
  | next (visited : List Str) (final : Str) (found : Bool)
  deriving Repr, DecidableEq

/-- One pass over the pattern sequence (the body of the `while True` loop).
Any conditional entry is evaluated and ends the pass: a truthy response is
returned as-is, otherwise the `break` ends the pass with `found_match`
unchanged.  A truthy normal response is skipped if already visited; a response
ending in `!>` is stripped, appended to the buffer with a space, and sets
`found_match`; any other response ends the turn with buffer + response
(+ the additional response), stripped. -/
def scanPatterns (choice : List Str → Str) (st : YoozState) (cleaned : Str) :
    List Pat → List Str → Str → Bool → ScanOut
  | [], v, f, fm => .next v f fm
  | .conditional pp mc mr oc orsp dr :: _, v, f, fm =>
    (match processConditionalPattern st pp mc mr oc orsp dr cleaned with
     | .error e => .errv e
     | .ok (some r) => if r = [] then .next v f fm else .retr r
     | .ok none => .next v f fm)
  | .normal up brs :: rest, v, f, fm =>
    (match processNormalPattern choice st up brs cleaned with
     | some r =>
       if r = [] then scanPatterns choice st cleaned rest v f fm
       else if r ∈ v then scanPatterns choice st cleaned rest v f fm
       else if (chars "!>").isSuffixOf r then
         scanPatterns choice st cleaned rest (r :: v)
           (f ++ pyStrip (r.take (r.length - 2)) ++ [' ']) true
       else
         .retr (pyStrip (f ++ r ++
           (if st.additional_response ≠ [] then ' ' :: st.additional_response else [])))
     | none => scanPatterns choice st cleaned rest v f fm)

/-- The `while True` loop around `scanPatterns`, fuelled (the source loops
while some pass appended a new continuation response; the wrapper supplies
fuel that the scenarios of this development provably never exhaust). -/
def loopPatterns (choice : List Str → Str) (st : YoozState) (cleaned : Str) :
    Nat → List Str → Str → Except Str (Option Str × Str)
  | 0, _, _f => .error (chars "loop fuel exhausted")
  | fu + 1, v, f =>
    match scanPatterns choice st cleaned st.patterns v f false with
    | .errv e => .error e
    | .retr r => .ok (some r, f)
    | .next v' f' found =>
      if found then loopPatterns choice st cleaned fu v' f' else .ok (none, f')

/-- Fuel for the pattern loop: more iterations than there are response
templates can never add new visited responses. -/
def loopFuel (st : YoozState) : Nat :=
  st.patterns.foldl
    (fun a p => a + (match p with | .normal _ brs => brs.length | _ => 1)) 2

/-- The fallback phrase of `get_response`. -/
def fallbackPhrase : Str := chars "???? متاسفم، متوجه نشدم. ????"

/-- The part of `get_response` after the nested-dialog check, on the updated
state: keyword section, pattern loop, then the final/fallback returns. -/
def getAfterNested (choice : List Str → Str) (st2 : YoozState) (cleaned : Str) :
    Except Str (Str × YoozState) :=
  match keywordPass choice st2 cleaned st2.patterns [] with
  | .error e => .error e
  | .ok final0 =>
    match loopPatterns choice st2 cleaned (loopFuel st2) [] final0 with
    | .error e => .error e
    | .ok (some r, _) => .ok (r, st2)
    | .ok (none, finalE) =>
      if finalE ≠ [] then
        .ok (pyStrip (finalE ++
          (if st2.additional_response ≠ [] then ' ' :: st2.additional_response else [])),
          st2)
      else
        .ok (fallbackPhrase ++
          (if st2.additional_response ≠ [] then ' ' :: st2.additional_response else []),
          st2)

/-- Model of `get_response`: replacement, stopword removal, the history/last-message
update, the nested-dialog check (whose truthy response returns immediately),
then `getAfterNested`.  The result pairs the returned text with the mutated
state; `random.choice` is the explicit `choice` parameter; an uncaught Python
exception is the `.error` case. -/
def get_response (choice : List Str → Str) (st : YoozState) (msg : Str) :
    Except Str (Str × YoozState) :=
  let um := processReplacements st.replacements msg
  let cleaned := removeStopWords st.stopWords um
  let st1 := { st with last_message := um,
                       message_history := st.message_history ++ [um] }
  let rp := processNested choice st1 cleaned
  let st2 := { st1 with last_message := rp.2 }
  match rp.1 with
  | some r => if r = [] then getAfterNested choice st2 cleaned else .ok (r, st2)
  | none => getAfterNested choice st2 cleaned

/-- The canonical deterministic sampler standing in for `random.choice`: the
first alternative.  Every alternative list exercised by a concrete scenario in
this development is a singleton, on which every faithful sampler agrees with
it. -/
def defChoice (l : List Str) : Str := l.headI

instance {ε α : Type} [DecidableEq ε] [DecidableEq α] : DecidableEq (Except ε α) := fun a b =>
  match a, b with
  | .error e1, .error e2 =>
    if h : e1 = e2 then .isTrue (by rw [h]) else .isFalse (by simp [h])
  | .error _, .ok _ => .isFalse (by simp)
  | .ok _, .error _ => .isFalse (by simp)
  | .ok v1, .ok v2 =>
    if h : v1 = v2 then .isTrue (by rw [h]) else .isFalse (by simp [h])

/-!
## The scanning regexes of `parse`

The extraction methods of `parse` scan the raw script text with
`finditer`/`findall`/`search`.  We interpret their (fixed) regexes with a
small backtracking engine over a syntax covering exactly the constructs those
regexes use: single-character classes, concatenation, greedy and lazy `*`/`+`,
greedy `?`, and numbered capturing groups.  `re.DOTALL` is reflected in the
class chosen for `.` when each regex is transcribed. -/

/-- Regex syntax for the extraction scans. -/
inductive Rx where
  | cset (p : Char → Bool)
  | seqn (l : List Rx)
  | star (lazy : Bool) (r : Rx)
  | plus (lazy : Bool) (r : Rx)
  | opt (r : Rx)
  | grp (i : Nat) (r : Rx)

/-- Group captures, indexed by group number - 1 (`none` = group did not
participate). -/
abbrev Caps := List (Option Str)

/-- Record a capture (overwriting: a repeated group keeps its last
iteration's capture, as in Python). -/
def setCap (i : Nat) (v : Str) (caps : Caps) : Caps := caps.set (i - 1) (some v)

/-- Capture text of group `i` (`findall` renders a non-participating group as
the empty string). -/
def capStr (caps : Caps) (i : Nat) : Str := ((caps.get? (i - 1)).getD none).getD []

mutual

/-- Fuelled CPS backtracking run of a regex from the front of `s`: on success
the continuation receives the remaining text and the captures.  Alternands of
`?`/`*`/`+` follow Python's order: greedy prefers one more iteration, lazy
prefers none; a `*`/`+` iteration must consume text (the engine's
empty-progress guard). -/
def rxRun : Nat → Rx → Str → Caps → (Str → Caps → Option (Str × Caps)) →
    Option (Str × Caps)
  | 0, _, _, _, _ => none
  | _ + 1, .cset p, s, caps, k =>
    (match s with
     | [] => none
     | c :: t => if p c then k t caps else none)
  | fu + 1, .seqn l, s, caps, k => rxRunSeq fu l s caps k
  | fu + 1, .star lz r, s, caps, k =>
    if lz then
      match k s caps with
      | some res => some res
      | none =>
        rxRun fu r s caps (fun t c' =>
          if t.length < s.length then rxRun fu (.star lz r) t c' k else none)
    else
      match rxRun fu r s caps (fun t c' =>
          if t.length < s.length then rxRun fu (.star lz r) t c' k else none) with
      | some res => some res
      | none => k s caps
  | fu + 1, .plus lz r, s, caps, k =>
    rxRun fu r s caps (fun t c' => rxRun fu (.star lz r) t c' k)
  | fu + 1, .opt r, s, caps, k =>
    (match rxRun fu r s caps k with
     | some res => some res
     | none => k s caps)
  | fu + 1, .grp i r, s, caps, k =>
    rxRun fu r s caps (fun t c' => k t (setCap i (s.take (s.length - t.length)) c'))

/-- Run a sequence of regexes. -/
def rxRunSeq : Nat → List Rx → Str → Caps → (Str → Caps → Option (Str × Caps)) →
    Option (Str × Caps)
  | 0, _, _, _, _ => none
  | _ + 1, [], s, caps, k => k s caps
  | fu + 1, r :: rs, s, caps, k =>
    rxRun fu r s caps (fun t c' => rxRunSeq fu rs t c' k)

end

mutual

/-- Node count of a regex (for the fuel bound). -/
def rxSize : Rx → Nat
  | .cset _ => 1
  | .seqn l => 1 + rxSizeList l
  | .star _ r => 2 + rxSize r
  | .plus _ r => 3 + rxSize r
  | .opt r => 1 + rxSize r
  | .grp _ r => 1 + rxSize r

/-- Node count of a regex list. -/
def rxSizeList : List Rx → Nat
  | [] => 0
  | r :: rs => rxSize r + rxSizeList rs

end

/-- Sufficient fuel for `rxRun`: the recursion nests at most one level per
node and per consumed character, with slack. -/
def rxFuel (r : Rx) (s : Str) : Nat := (rxSize r + 2) * (s.length + 2)

/-- Try to match `r` at the front of `s` (`n` = number of capture groups):
on success, the length of the match and the captures. -/
def rxAccept (r : Rx) (n : Nat) (s : Str) : Option (Nat × Caps) :=
  match rxRun (rxFuel r s) r s (List.replicate n none) (fun t caps => some (t, caps)) with
  | some (t, caps) => some (s.length - t.length, caps)
  | none => none

/-- Fuelled `finditer`: leftmost matches, non-overlapping, scanning resumes
after each match (with the usual at-least-one-character advance). -/
def rxFindIterF (r : Rx) (n : Nat) : Nat → Str → List Caps
  | 0, _ => []
  | fu + 1, s =>
    match rxAccept r n s with
    | some (len, caps) => caps :: rxFindIterF r n fu (s.drop (max len 1))
    | none =>
      match s with
      | [] => []
      | _ :: t => rxFindIterF r n fu t

/-- Python `re.finditer`, as a capture list per match. -/
def rxFindIter (r : Rx) (n : Nat) (s : Str) : List Caps :=
  rxFindIterF r n (s.length + 1) s

/-- Python `re.search`: captures of the leftmost match. -/
def rxSearch (r : Rx) (n : Nat) (s : Str) : Option Caps :=
  (rxFindIter r n s).head?

/-!
### The extraction regexes, transcribed

Shorthands: `rlit c` a literal, `rlits "txt"` a literal word, `rS`/`rsp`/`rw`
/`rd` the classes `\S`/`\s`/`\w`/`\d`, `rdotA`/`rdotN` the `.` class with and
without `re.DOTALL`, `rsps` = `\s*`, `rlazyA`/`rlazyN` = `.*?` under the two
`.` readings. -/

/-- Literal character. -/
def rlit (c : Char) : Rx := .cset (· = c)

/-- Literal word, as a sequence of literal characters. -/
def rlits (s : String) : List Rx := s.data.map rlit

/-- Class `\S`. -/
def rS : Rx := .cset (fun c => ¬ pySpace c)

/-- Class `\s`. -/
def rsp : Rx := .cset pySpace

/-- Class `\w`. -/
def rw : Rx := .cset wordChar

/-- Class `\d`. -/
def rd : Rx := .cset digitChar

/-- Class `.` under `re.DOTALL`. -/
def rdotA : Rx := .cset (fun _ => true)

/-- Class `.` without `re.DOTALL` (no newline). -/
def rdotN : Rx := .cset (· ≠ '\n')

/-- The regex `\s*`. -/
def rsps : Rx := .star false rsp

/-- Lazy `.*?` under `re.DOTALL`. -/
def rlazyA : Rx := .star true rdotA

/-- Lazy `.*?` without `re.DOTALL`. -/
def rlazyN : Rx := .star true rdotN

/-- The regex `(\S+)\s*\{(.*?)\}` with `re.DOTALL` (`_extract_categories`). -/
def catRx : Rx := .seqn
  [.grp 1 (.plus false rS), rsps, rlit '\x7b', .grp 2 rlazyA, rlit '\x7d']

/-- The regex `#(\S+)\s*:\s*(.*?)\s*\.` with `re.DOTALL` (`_extract_general_definitions`). -/
def defRx : Rx := .seqn
  [rlit '#', .grp 1 (.plus false rS), rsps, rlit ':', rsps, .grp 2 rlazyA, rsps,
   rlit '.']

/-- The regex `\{\s*(.*?)\s*\}\s*->\s*\{\s*(.*?)\s*\}` (`_extract_replacements`). -/
def replRx : Rx := .seqn
  ([rlit '\x7b', rsps, .grp 1 rlazyN, rsps, rlit '\x7d', rsps] ++ rlits "->" ++
   [rsps, rlit '\x7b', rsps, .grp 2 rlazyN, rsps, rlit '\x7d'])

/-- The regex `\(\s*\+\s*(.*?)\s*-\s*(.*?)\)` with `re.DOTALL`
(`_extract_conversational_patterns`, also the nested-command grammar). -/
def convRx : Rx := .seqn
  [rlit '(', rsps, rlit '+', rsps, .grp 1 rlazyA, rsps, rlit '-', rsps,
   .grp 2 rlazyA, rlit ')']

/-- The regex `\(\s*\+\s*(.*?)\s*-\s*(.*?)\s*\)` with `re.DOTALL` (the outer scan of
`_extract_conditions` and the nested inner grammar). -/
def condOuterRx : Rx := .seqn
  [rlit '(', rsps, rlit '+', rsps, .grp 1 rlazyA, rsps, rlit '-', rsps,
   .grp 2 rlazyA, rsps, rlit ')']

/-- The regex `\[([^\]]+)\]` (the bracket test of `_extract_conditions`). -/
def bracketRx : Rx := .seqn
  [rlit '[', .grp 1 (.plus false (.cset (· ≠ ']'))), rlit ']']

/-- The conditional-form regex of `_extract_conditions` (no `re.DOTALL`):
`\(\s*\+\s*(.*?)\s*\.\s*\[(.*?)\]\s*:\s*\-\s*(.*?)\s*`
`(?:!\[\s*(.*?)\s*\]\s*:\s*\-\s*(.*?)\s*)*!\s*:\s*\-\s*(.*?)\s*\)`. -/
def bigCondRx : Rx := .seqn
  [rlit '(', rsps, rlit '+', rsps, .grp 1 rlazyN, rsps, rlit '.', rsps,
   rlit '[', .grp 2 rlazyN, rlit ']', rsps, rlit ':', rsps, rlit '-', rsps,
   .grp 3 rlazyN, rsps,
   .star false (.seqn
     [rlit '!', rlit '[', rsps, .grp 4 rlazyN, rsps, rlit ']', rsps, rlit ':',
      rsps, rlit '-', rsps, .grp 5 rlazyN, rsps]),
   rlit '!', rsps, rlit ':', rsps, rlit '-', rsps, .grp 6 rlazyN, rsps,
   rlit ')']

/-- The regex `-\s*\{\s*(.*?)\s*\}` with `re.DOTALL` (`_extract_stopwords`). -/
def stopRx : Rx := .seqn
  [rlit '-', rsps, rlit '\x7b', rsps, .grp 1 rlazyA, rsps, rlit '\x7d']

/-- The regex `\+\s*\(\s*(.*?)\s*\)` with `re.DOTALL` (`_extract_additional_response`). -/
def addRx : Rx := .seqn
  [rlit '+', rsps, rlit '(', rsps, .grp 1 rlazyA, rsps, rlit ')']

/-- The regex `\[\[(\d+(\.\d+)?)\]\]` (the maturity level). -/
def rulesNumRx : Rx := .seqn
  [rlit '[', rlit '[',
   .grp 1 (.seqn [.plus false rd, .opt (.grp 2 (.seqn [rlit '.', .plus false rd]))]),
   rlit ']', rlit ']']

/-- The regex `\{\s*\[(\d+(\.\d+)?)\]\s*(.*?)\s*>\s*(.*?)\}` (the rule entries). -/
def rulesRx : Rx := .seqn
  [rlit '\x7b', rsps, rlit '[',
   .grp 1 (.seqn [.plus false rd, .opt (.grp 2 (.seqn [rlit '.', .plus false rd]))]),
   rlit ']', rsps, .grp 3 rlazyN, rsps, rlit '>', rsps, .grp 4 rlazyN,
   rlit '\x7d']

/-- The regex `=\s*(\w+):\s*(\S+)` (`_extract_variables`). -/
def varRx : Rx := .seqn
  [rlit '=', rsps, .grp 1 (.plus false rw), rlit ':', rsps, .grp 2 (.plus false rS)]

/-- The regex `\(\s*\+\s*([^\(\)]*?)\s*-\s*([^\(\)]*?)\s*(\(.*?\))\s*\)` with
`re.DOTALL` (`_extract_nested_messages`). -/
def nestedRx : Rx := .seqn
  [rlit '(', rsps, rlit '+', rsps,
   .grp 1 (.star true (.cset (fun c => c ≠ '(' ∧ c ≠ ')'))), rsps, rlit '-', rsps,
   .grp 2 (.star true (.cset (fun c => c ≠ '(' ∧ c ≠ ')'))), rsps,
   .grp 3 (.seqn [rlit '(', rlazyA, rlit ')']), rsps, rlit ')']

/-!
## The extraction methods and `parse`
-/

/-- Value of a digit run. -/
def digitsVal (s : Str) : Nat := s.foldl (fun a c => a * 10 + (c.toNat - 48)) 0

/-- Python `float` on a matched `\d+(\.\d+)?` literal, modelled exactly as a
rational. -/
def parseDec (s : Str) : ℚ :=
  match splitAtChar '.' s with
  | none => (digitsVal s : ℚ)
  | some (a, b) => (digitsVal a : ℚ) + (digitsVal b : ℚ) / ((10 : ℚ) ^ b.length)

/-- Model of `_extract_categories`: the `(name, items)` pairs appended to
`self.categories`. -/
def extractCategories (t : Str) : List (Str × List Str) :=
  (rxFindIter catRx 2 t).map fun cp =>
    (pyStrip (capStr cp 1), (splitOnChar '،' (capStr cp 2)).map pyStrip)

/-- Model of `_extract_general_definitions`: the `(key, value)` updates applied to
`self.definitions`, in scan order. -/
def extractDefinitions (t : Str) : List (Str × Str) :=
  (rxFindIter defRx 2 t).map fun cp => (pyStrip (capStr cp 1), pyStrip (capStr cp 2))

/-- Model of `_extract_replacements`: the zipped `(source, target)` pairs (Python `zip`
drops the tail of the longer list). -/
def extractReplacements (t : Str) : List (Str × Str) :=
  (rxFindIter replRx 2 t).flatMap fun cp =>
    List.zip ((splitOnChar '،' (capStr cp 1)).map pyStrip)
      ((splitOnChar '،' (capStr cp 2)).map pyStrip)

/-- Model of `_extract_conversational_patterns`: the normal pattern entries (nonempty
user pattern). -/
def extractConvPatterns (t : Str) : List Pat :=
  (rxFindIter convRx 2 t).filterMap fun cp =>
    let up := pyStrip (capStr cp 1)
    if up = [] then none
    else some (.normal up ((splitOnChar '_' (capStr cp 2)).map pyStrip))

/-- Model of `_extract_conversational_patterns`: the global responses (empty user
pattern). -/
def extractConvGlobals (t : Str) : List Str :=
  (rxFindIter convRx 2 t).flatMap fun cp =>
    if pyStrip (capStr cp 1) = [] then (splitOnChar '_' (capStr cp 2)).map pyStrip
    else []

/-- Does `re.findall(r'\[([^\]]+)\]', up)` find anything? -/
def hasBracketGroup (up : Str) : Bool := rxFindIter bracketRx 1 up ≠ []

/-- One conditional entry built from a `findall` tuple of `bigCondRx`
(`''` group values become `None` conditions/responses, as in the source's
truthiness tests). -/
def mkConditional (cp : Caps) : Pat :=
  .conditional (pyStrip (capStr cp 1))
    (if capStr cp 2 ≠ [] then some (pyStrip (capStr cp 2)) else none)
    (pyStrip (capStr cp 3))
    (if capStr cp 4 ≠ [] then some (pyStrip (capStr cp 4)) else none)
    (if capStr cp 5 ≠ [] then some (pyStrip (capStr cp 5)) else none)
    (pyStrip (capStr cp 6))

/-- Model of `_extract_conditions`: for each outer `(+ ... - ...)` match whose nonempty
user pattern contains a bracket group, the source appends the conditional
entries of a fresh `findall` of `bigCondRx` over the whole text. -/
def extractConditions (t : Str) : List Pat :=
  (rxFindIter condOuterRx 2 t).flatMap fun cp =>
    let up := pyStrip (capStr cp 1)
    if up = [] then []
    else if hasBracketGroup up then (rxFindIter bigCondRx 6 t).map mkConditional
    else []

/-- Model of `_extract_conditions`: the global responses of empty user patterns (this
extractor, too, extends `self.global_responses`). -/
def extractCondGlobals (t : Str) : List Str :=
  (rxFindIter condOuterRx 2 t).flatMap fun cp =>
    if pyStrip (capStr cp 1) = [] then (splitOnChar '_' (capStr cp 2)).map pyStrip
    else []

/-- Model of `_extract_stopwords`. -/
def extractStopwords (t : Str) : List Str :=
  (rxFindIter stopRx 1 t).flatMap fun cp =>
    (splitOnChar '،' (capStr cp 1)).map pyStrip

/-- Model of `_extract_additional_response` (a `search`: first match only, if any). -/
def extractAdditional (t : Str) : Option Str :=
  (rxSearch addRx 1 t).map fun cp => pyStrip (capStr cp 1)

/-- The maturity level `[[N]]` (a `search`). -/
def extractRulesValue (t : Str) : Option ℚ :=
  (rxSearch rulesNumRx 2 t).map fun cp => parseDec (capStr cp 1)

/-- The rule entries `{[N] trigger > response}`. -/
def extractRules (t : Str) : List Rule :=
  (rxFindIter rulesRx 4 t).map fun cp =>
    ⟨parseDec (pyStrip (capStr cp 1)), pyStrip (capStr cp 3), pyStrip (capStr cp 4)⟩

/-- Model of `_extract_variables`: the `(key, value)` updates applied to `self.memory`. -/
def extractVariables (t : Str) : List (Str × Str) :=
  (rxFindIter varRx 2 t).map fun cp => (pyStrip (capStr cp 1), pyStrip (capStr cp 2))

/-- Model of `_extract_nested_messages`: the `(parent_trigger, data)` updates applied
to the `self.nested_messages` dict; the nested commands are re-scanned with
the pattern grammar. -/
def extractNested (t : Str) : List (Str × NestedData) :=
  (rxFindIter nestedRx 3 t).map fun cp =>
    let cmds := pyStrip (capStr cp 3)
    (pyStrip (capStr cp 1),
     ⟨splitOnChar '_' (pyStrip (capStr cp 2)),
      (rxFindIter convRx 2 cmds).map fun np =>
        (pyStrip (capStr np 1), [pyStrip (capStr np 2)])⟩)

/-- Model of `parse`: runs the ten extractors in order over the same raw text.
Sequence-backed fields are extended, dict-backed fields are updated key by
key, the two `search`-backed scalars are overwritten when a match exists. -/
def parse (st : YoozState) (t : Str) : YoozState :=
  { st with
    categories := st.categories ++ extractCategories t,
    definitions := setAll st.definitions (extractDefinitions t),
    replacements := st.replacements ++ extractReplacements t,
    patterns := st.patterns ++ (extractConvPatterns t ++ extractConditions t),
    global_responses :=
      st.global_responses ++ (extractConvGlobals t ++ extractCondGlobals t),
    stopWords := st.stopWords ++ extractStopwords t,
    additional_response := (extractAdditional t).getD st.additional_response,
    rules_value := (extractRulesValue t).getD st.rules_value,
    rules := st.rules ++ extractRules t,
    memory := setAll st.memory (extractVariables t),
    nested_messages := setAll st.nested_messages (extractNested t) }

/-!
## Concrete scenario data
-/

/-- A script declaring a conditional pattern first and a normal pattern
second. -/
def scriptCondFirst : Str := chars "(+ hi . [True]: - a !: - b) (+ bye - c)"

/-- A script consisting of a single conditional-form block. -/
def scriptCondOnly : Str := chars "(+ hi . [True]: - a !: - b)"

/-- A script declaring one nested dialog. -/
def scriptNested : Str := chars "(+ p - q (+ c - d))"

/-- A state with one stopword and nothing else. -/
def stStop : YoozState := { stopWords := [chars "the"] }

/-- A state with one nested-dialog entry: parent trigger `p`, parent response
`q`, child pattern `c` with child response `d`. -/
def stNest : YoozState :=
  { nested_messages := [(chars "p", ⟨[chars "q"], [(chars "c", [chars "d"])]⟩)] }

/-- The first turn of the nested scenario: the message `p`. -/
def nestTurn1 : Except Str (Str × YoozState) := get_response defChoice stNest (chars "p")

/-- The engine state after the first turn of the nested scenario. -/
def stNest2 : YoozState := (nestTurn1.toOption.map Prod.snd).getD initState

/-- A state with one conditional pattern whose condition text is an unbound
identifier. -/
def condCrashState : YoozState :=
  { patterns := [.conditional (chars "hi") (some (chars "undefined_name"))
      (chars "a") none none (chars "b")] }

/-- Normal-pattern discriminator (the source's `'user_pattern' in pattern`). -/
def patIsNormal : Pat → Bool
  | .normal _ _ => true
  | _ => false

/-- Conditional-pattern discriminator (the source's `"pattern" in pattern`). -/
def patIsConditional : Pat → Bool
  | .conditional _ _ _ _ _ _ => true
  | _ => false

/-!
## Association-list lemmas (for the re-parse behaviour of dict-backed fields)
-/

theorem lookupA_append {α : Type} (a b : List (Str × α)) (k : Str) :
    lookupA (a ++ b) k = (lookupA a k).or (lookupA b k) := by
  induction a with
  | nil => simp [lookupA]
  | cons p t ih =>
    obtain ⟨k1, v1⟩ := p
    by_cases h : k = k1 <;> simp [lookupA, h, ih]

theorem lookupA_setKey {α : Type} (d : List (Str × α)) (k k' : Str) (v : α) :
    lookupA (setKey d k v) k' = if k' = k then some v else lookupA d k' := by
  induction d with
  | nil => simp [setKey, lookupA]
  | cons p t ih =>
    obtain ⟨k1, v1⟩ := p
    by_cases h1 : k1 = k
    · subst h1
      by_cases h2 : k' = k1 <;> simp [setKey, lookupA, h2]
    · by_cases h2 : k' = k1
      · subst h2
        simp [setKey, lookupA, h1, Ne.symm h1]
      · simp [setKey, lookupA, h1, h2, ih]

theorem lookupA_setAll {α : Type} (ps : List (Str × α)) (d : List (Str × α)) (k : Str) :
    lookupA (setAll d ps) k = (lookupA ps.reverse k).or (lookupA d k) := by
  induction ps generalizing d with
  | nil => simp [setAll, lookupA]
  | cons p t ih =>
    obtain ⟨k1, v1⟩ := p
    have : setAll d ((k1, v1) :: t) = setAll (setKey d k1 v1) t := rfl
    rw [this, ih, List.reverse_cons, lookupA_append, lookupA_setKey]
    cases h : lookupA t.reverse k with
    | some v => simp [Option.or]
    | none =>
      by_cases h2 : k = k1 <;> simp [lookupA, h2, Option.or]

/-!
## Claim C8
-/

/-- C8, counterexample.  The claim asserts that parsing the same script twice
duplicates the nested-dialog entries ("nested dialogs each appear twice").
On the one-nested-dialog script `(+ p - q (+ c - d))`, the nested table after
two parses is unchanged from the single parse and still holds exactly one
entry: `nested_messages` is a dict keyed by the parent trigger, and the
re-parse overwrites the same key with the same value. -/
theorem claim_C8_counterexample :
    (parse (parse initState scriptNested) scriptNested).nested_messages =
      (parse initState scriptNested).nested_messages ∧
    (parse initState scriptNested).nested_messages.length = 1 ∧
    (parse (parse initState scriptNested) scriptNested).patterns.length = 2 ∧
    (parse initState scriptNested).patterns.length = 1 := by
  refine ⟨by decide, by decide, by decide, by decide⟩

/-- C8, amended: calling `parse` twice with the same script text duplicates
every sequence-backed entry (categories, patterns, rules, replacements each
appear twice), while map-backed entries — definitions, variables, and ALSO the
nested-dialog table, which is keyed by parent trigger — are overwritten key by
key and equal the single-parse result. -/
theorem claim_C8_amended (t : Str) :
    ((parse (parse initState t) t).categories =
      (parse initState t).categories ++ (parse initState t).categories) ∧
    ((parse (parse initState t) t).patterns =
      (parse initState t).patterns ++ (parse initState t).patterns) ∧
    ((parse (parse initState t) t).rules =
      (parse initState t).rules ++ (parse initState t).rules) ∧
    ((parse (parse initState t) t).replacements =
      (parse initState t).replacements ++ (parse initState t).replacements) ∧
    (∀ k, lookupA (parse (parse initState t) t).definitions k =
      lookupA (parse initState t).definitions k) ∧
    (∀ k, lookupA (parse (parse initState t) t).memory k =
      lookupA (parse initState t).memory k) ∧
    (∀ k, lookupA (parse (parse initState t) t).nested_messages k =
      lookupA (parse initState t).nested_messages k) := by
  refine ⟨by simp [parse, initState], by simp [parse, initState],
    by simp [parse, initState], by simp [parse, initState], ?_, ?_, ?_⟩ <;>
  · intro k
    simp only [parse, initState]
    rw [lookupA_setAll, lookupA_setAll]
    cases lookupA _ k <;> simp [Option.or, lookupA]

/-!
## Claim C9
-/

theorem mem_extractConvPatterns_isNormal (t : Str) (p : Pat)
    (h : p ∈ extractConvPatterns t) : patIsNormal p = true := by
  simp only [extractConvPatterns, List.mem_filterMap] at h
  obtain ⟨cp, -, h2⟩ := h
  by_cases hup : pyStrip (capStr cp 1) = [] <;> simp [hup] at h2
  simp [← h2, patIsNormal]

theorem mem_extractConditions_isConditional (t : Str) (p : Pat)
    (h : p ∈ extractConditions t) : patIsConditional p = true := by
  simp only [extractConditions, List.mem_flatMap] at h
  obtain ⟨cp, -, h2⟩ := h
  by_cases hup : pyStrip (capStr cp 1) = [] <;> simp [hup] at h2
  by_cases hbr : hasBracketGroup (pyStrip (capStr cp 1)) = true <;> simp [hbr] at h2
  obtain ⟨cp', -, h3⟩ := h2
  simp [← h3, mkConditional, patIsConditional]

/-- C9: after a single `parse` of a fresh state, the pattern sequence is all
normal entries followed by all conditional entries, whatever the script order
(`_extract_conversational_patterns` runs in full before `_extract_conditions`);
and a conditional-form block also matches the normal-pattern grammar, so it
additionally yields a normal entry whose user pattern embeds the bracketed
condition text, placed before all conditional entries — demonstrated exactly
on the one-block script `(+ hi . [True]: - a !: - b)`. -/
theorem claim_C9 :
    (∀ t : Str, ∃ ns cs : List Pat,
      (parse initState t).patterns = ns ++ cs ∧
      (∀ p ∈ ns, patIsNormal p = true) ∧
      (∀ p ∈ cs, patIsConditional p = true)) ∧
    (parse initState scriptCondOnly).patterns =
      [.normal (chars "hi . [True]:") [chars "a !: - b"],
       .conditional (chars "hi") (some (chars "True")) (chars "a") none none
         (chars "b")] ∧
    containsSub (chars "[True]") (chars "hi . [True]:") = true := by
  refine ⟨fun t => ⟨extractConvPatterns t, extractConditions t, by simp [parse, initState],
    fun p hp => mem_extractConvPatterns_isNormal t p hp,
    fun p hp => mem_extractConditions_isConditional t p hp⟩, by decide, by decide⟩

/-- C9, instantiated at a concrete script (the universally quantified part
applied at `scriptCondOnly`, its bounded quantifications discharged on the
computed pattern list). -/
theorem claim_C9_witness :
    ∃ ns cs : List Pat,
      (parse initState scriptCondOnly).patterns = ns ++ cs ∧
      (∀ p ∈ ns, patIsNormal p = true) ∧
      (∀ p ∈ cs, patIsConditional p = true) :=
  claim_C9.1 scriptCondOnly

/-!
## Claim C1
-/

/-- C1, counterexample.  The script `(+ hi . [True]: - a !: - b) (+ bye - c)`
declares its conditional pattern first and its normal pattern `bye` second;
the claim says the message `bye` (matching only the normal pattern) yields
the conditional pattern's default response `b` or no match, never the
normal pattern's response `c`.  The engine returns exactly `c`: extraction
places all normal entries before all conditional entries, so the loop reaches
`bye` first.  (All response alternative lists in this scenario are singletons,
so `defChoice` agrees with every faithful `random.choice`.) -/
theorem claim_C1_counterexample :
    (get_response defChoice (parse initState scriptCondFirst) (chars "bye")).toOption.map
        Prod.fst = some (chars "c") ∧
    chars "c" ≠ chars "b" ∧ chars "c" ≠ fallbackPhrase := by
  refine ⟨by decide, by decide, by decide⟩

theorem scanPatterns_stops_at_conditional (choice : List Str → Str)
    (st : YoozState) (cleaned : Str) (ns : List Pat) (c : Pat)
    (rest rest' : List Pat) (v : List Str) (f : Str) (fm : Bool)
    (hns : ∀ p ∈ ns, patIsNormal p = true) (hc : patIsConditional c = true) :
    scanPatterns choice st cleaned (ns ++ c :: rest) v f fm =
      scanPatterns choice st cleaned (ns ++ c :: rest') v f fm := by
  induction ns generalizing v f fm with
  | nil =>
    cases c with
    | normal up brs => simp [patIsConditional] at hc
    | conditional pp mc mr oc orsp dr => simp [scanPatterns]
  | cons p t ih =>
    have hp : patIsNormal p = true := hns p (by simp)
    have ht : ∀ q ∈ t, patIsNormal q = true := fun q hq => hns q (by simp [hq])
    cases p with
    | conditional pp mc mr oc orsp dr => simp [patIsNormal] at hp
    | normal up brs =>
      simp only [List.cons_append, scanPatterns]
      cases processNormalPattern choice st up brs cleaned with
      | none => exact ih v f fm ht
      | some r =>
        by_cases h1 : r = []
        · simp only [if_pos h1]
          exact ih v f fm ht
        · simp only [if_neg h1]
          by_cases h2 : r ∈ v
          · simp only [if_pos h2]
            exact ih v f fm ht
          · simp only [if_neg h2]
            by_cases h3 : (chars "!>").isSuffixOf r = true
            · simp only [h3, if_true]
              exact ih _ _ _ ht
            · simp only [Bool.not_eq_true] at h3
              simp only [h3, Bool.false_eq_true, if_false]

theorem scanPatterns_patterns_irrel (choice : List Str → Str) (st : YoozState)
    (x x' : List Pat) (cleaned : Str) (l : List Pat) (v : List Str) (f : Str)
    (fm : Bool) :
    scanPatterns choice { st with patterns := x } cleaned l v f fm =
      scanPatterns choice { st with patterns := x' } cleaned l v f fm := by
  induction l generalizing v f fm with
  | nil => rfl
  | cons p t ih =>
    cases p with
    | conditional pp mc mr oc orsp dr => rfl
    | normal up brs =>
      simp only [scanPatterns]
      have : processNormalPattern choice { st with patterns := x } up brs cleaned =
          processNormalPattern choice { st with patterns := x' } up brs cleaned := rfl
      rw [this]
      cases processNormalPattern choice { st with patterns := x' } up brs cleaned with
      | none => exact ih v f fm
      | some r =>
        by_cases h1 : r = []
        · simp only [if_pos h1]
          exact ih v f fm
        · simp only [if_neg h1]
          by_cases h2 : r ∈ v
          · simp only [if_pos h2]
            exact ih v f fm
          · simp only [if_neg h2]
            by_cases h3 : (chars "!>").isSuffixOf r = true
            · simp only [h3, if_true]
              exact ih _ _ _
            · simp only [Bool.not_eq_true] at h3
              simp only [h3, Bool.false_eq_true, if_false]

theorem loopPatterns_stops_at_conditional (choice : List Str → Str)
    (st : YoozState) (cleaned : Str) (ns : List Pat) (c : Pat)
    (rest rest' : List Pat) (fu : Nat) (v : List Str) (f : Str)
    (hns : ∀ p ∈ ns, patIsNormal p = true) (hc : patIsConditional c = true) :
    loopPatterns choice { st with patterns := ns ++ c :: rest } cleaned fu v f =
      loopPatterns choice { st with patterns := ns ++ c :: rest' } cleaned fu v f := by
  induction fu generalizing v f with
  | zero => rfl
  | succ n ih =>
    have e1 : scanPatterns choice { st with patterns := ns ++ c :: rest } cleaned
        (ns ++ c :: rest) v f false =
        scanPatterns choice { st with patterns := ns ++ c :: rest' } cleaned
        (ns ++ c :: rest') v f false :=
      (scanPatterns_stops_at_conditional choice _ cleaned ns c rest rest' v f
          false hns hc).trans
        (scanPatterns_patterns_irrel choice st _ _ cleaned _ v f false)
    simp only [loopPatterns]
    rw [e1]
    cases scanPatterns choice { st with patterns := ns ++ c :: rest' } cleaned
        (ns ++ c :: rest') v f false with
    | retr r => rfl
    | errv e => rfl
    | next v' f' found =>
      cases found with
      | true => simp [ih]
      | false => rfl

/-- C1, amended.  In the pattern loop, encountering any conditional entry
evaluates it and either returns or halts the scan, so every normal entry
placed after the first conditional entry in the PATTERN-SEQUENCE order is
unreachable through this path (the scan and the whole loop are insensitive to
what follows the first conditional entry).  However, extraction places all
normal entries before all conditional entries regardless of script order, so
for a script whose first DECLARED pattern is conditional and whose second is
normal, a message matching only the normal pattern yields the normal
pattern's response. -/
theorem claim_C1_amended (choice : List Str → Str) (st : YoozState)
    (cleaned : Str) (ns : List Pat) (c : Pat) (rest rest' : List Pat)
    (fu : Nat) (v : List Str) (f : Str) (fm : Bool)
    (hns : ∀ p ∈ ns, patIsNormal p = true) (hc : patIsConditional c = true) :
    (scanPatterns choice st cleaned (ns ++ c :: rest) v f fm =
      scanPatterns choice st cleaned (ns ++ c :: rest') v f fm) ∧
    (loopPatterns choice { st with patterns := ns ++ c :: rest } cleaned fu v f =
      loopPatterns choice { st with patterns := ns ++ c :: rest' } cleaned fu v f) ∧
    (get_response defChoice (parse initState scriptCondFirst) (chars "bye")).toOption.map
        Prod.fst = some (chars "c") :=
  ⟨scanPatterns_stops_at_conditional choice st cleaned ns c rest rest' v f fm hns hc,
   loopPatterns_stops_at_conditional choice st cleaned ns c rest rest' fu v f hns hc,
   by decide⟩

/-- C1, witness: the amended theorem applied at a concrete instance — one
normal entry before a conditional entry, with the entries after the
conditional differing. -/
theorem claim_C1_witness :
    (scanPatterns defChoice initState (chars "z")
        ([Pat.normal (chars "x") [chars "y"]] ++
          Pat.conditional (chars "w") (some (chars "True")) (chars "m") none none
            (chars "d") :: [Pat.normal (chars "q") [chars "r"]])
        [] [] false =
      scanPatterns defChoice initState (chars "z")
        ([Pat.normal (chars "x") [chars "y"]] ++
          Pat.conditional (chars "w") (some (chars "True")) (chars "m") none none
            (chars "d") :: [])
        [] [] false) ∧
    (loopPatterns defChoice
        { initState with patterns :=
            ([Pat.normal (chars "x") [chars "y"]] ++
              Pat.conditional (chars "w") (some (chars "True")) (chars "m") none none
                (chars "d") :: [Pat.normal (chars "q") [chars "r"]]) }
        (chars "z") 3 [] [] =
      loopPatterns defChoice
        { initState with patterns :=
            ([Pat.normal (chars "x") [chars "y"]] ++
              Pat.conditional (chars "w") (some (chars "True")) (chars "m") none none
                (chars "d") :: []) }
        (chars "z") 3 [] []) ∧
    (get_response defChoice (parse initState scriptCondFirst) (chars "bye")).toOption.map
        Prod.fst = some (chars "c") :=
  claim_C1_amended defChoice initState (chars "z")
    [Pat.normal (chars "x") [chars "y"]]
    (Pat.conditional (chars "w") (some (chars "True")) (chars "m") none none (chars "d"))
    [Pat.normal (chars "q") [chars "r"]] [] 3 [] [] false
    (by decide) (by decide)

/-!
## Claim C2
-/

/-- C2, the divergence.  The claim says `get_response` always returns a string
and catches any internal failure at the engine boundary.  The source contains
no `try`/`except` anywhere: on a state with one conditional pattern whose
condition text is the unbound identifier `undefined_name`, the message `hi`
matches the conditional pattern, `_evaluate_condition` hands the resolved text
to `eval`, and the resulting `NameError` propagates out of `get_response`
instead of degrading to the fallback phrase. -/
theorem claim_C2_code_bug :
    get_response defChoice condCrashState (chars "hi") =
      .error (chars "NameError: name undefined_name is not defined") ∧
    (∀ r st', get_response defChoice condCrashState (chars "hi") ≠ .ok (r, st')) := by
  refine ⟨by decide, ?_⟩
  intro r st' h
  rw [show get_response defChoice condCrashState (chars "hi") =
      .error (chars "NameError: name undefined_name is not defined") from by decide] at h
  exact absurd h (by simp)

/-!
## Claim C3
-/

/-- C3, counterexample.  The claim says the cleaned message (with stopwords
removed) becomes the new `last_message` and is appended to the history.  With
stopword `the` and message `the cat`, the cleaned message is `cat`, but both
`last_message` and the appended history entry are `the cat`: line 64 stores
`user_message` (the replaced message, before stopword removal), not
`cleaned_message`. -/
theorem claim_C3_counterexample :
    (get_response defChoice stStop (chars "the cat")).toOption.map
        (fun p => p.2.last_message) = some (chars "the cat") ∧
    (get_response defChoice stStop (chars "the cat")).toOption.map
        (fun p => p.2.message_history) = some [chars "the cat"] ∧
    removeStopWords stStop.stopWords (chars "the cat") = chars "cat" ∧
    chars "the cat" ≠ chars "cat" := by
  refine ⟨by decide, by decide, by decide, by decide⟩

theorem getAfterNested_state (choice : List Str → Str) (st2 : YoozState)
    (cleaned r : Str) (st' : YoozState)
    (h : getAfterNested choice st2 cleaned = .ok (r, st')) : st' = st2 := by
  unfold getAfterNested at h
  cases hk : keywordPass choice st2 cleaned st2.patterns [] with
  | error e => rw [hk] at h; exact absurd h (by simp)
  | ok final0 =>
    rw [hk] at h
    dsimp only at h
    cases hl : loopPatterns choice st2 cleaned (loopFuel st2) [] final0 with
    | error e => rw [hl] at h; exact absurd h (by simp)
    | ok pr =>
      rw [hl] at h
      obtain ⟨ret, fin⟩ := pr
      cases ret with
      | some r' =>
        dsimp only at h
        simp only [Except.ok.injEq, Prod.mk.injEq] at h
        exact h.2.symm
      | none =>
        dsimp only at h
        by_cases hf : fin ≠ []
        · rw [if_pos hf] at h
          simp only [Except.ok.injEq, Prod.mk.injEq] at h
          exact h.2.symm
        · rw [if_neg hf] at h
          simp only [Except.ok.injEq, Prod.mk.injEq] at h
          exact h.2.symm

/-- C3, amended.  On each turn the REPLACED message (before stopword removal)
becomes the new `last_message` and is appended to the history, before
nested-dialog evaluation begins: on every successful turn, the history grows
by exactly the replaced message; on the stopword scenario the stored entry is
the uncleaned `the cat`; and the first nested turn returns the parent
response, which requires the history/`last_message` update to have happened
before the nested check reads them. -/
theorem claim_C3_amended :
    (∀ (choice : List Str → Str) (st : YoozState) (msg r : Str) (st' : YoozState),
      get_response choice st msg = .ok (r, st') →
      st'.message_history =
        st.message_history ++ [processReplacements st.replacements msg]) ∧
    (get_response defChoice stStop (chars "the cat")).toOption.map
        (fun p => p.2.last_message) = some (chars "the cat") ∧
    (get_response defChoice stStop (chars "the cat")).toOption.map
        (fun p => p.2.message_history) = some [chars "the cat"] ∧
    nestTurn1.toOption.map Prod.fst = some (chars "q") := by
  refine ⟨?_, by decide, by decide, by decide⟩
  intro choice st msg r st' h
  simp only [get_response] at h
  cases hn : (processNested choice
      { st with last_message := processReplacements st.replacements msg,
                message_history := st.message_history ++
                  [processReplacements st.replacements msg] }
      (removeStopWords st.stopWords (processReplacements st.replacements msg))).1 with
  | none =>
    rw [hn] at h
    dsimp only at h
    exact congrArg YoozState.message_history (getAfterNested_state _ _ _ _ _ h)
  | some r' =>
    rw [hn] at h
    dsimp only at h
    by_cases hr : r' = []
    · rw [if_pos hr] at h
      exact congrArg YoozState.message_history (getAfterNested_state _ _ _ _ _ h)
    · rw [if_neg hr] at h
      simp only [Except.ok.injEq, Prod.mk.injEq] at h
      rw [← h.2]

/-- C3, witness: the history-growth part of the amended theorem applied at the
stopword scenario. -/
theorem claim_C3_witness :
    ({ stStop with
        last_message := chars "the cat",
        message_history := [chars "the cat"] } : YoozState).message_history =
      stStop.message_history ++
        [processReplacements stStop.replacements (chars "the cat")] :=
  claim_C3_amended.1 defChoice stStop (chars "the cat") fallbackPhrase
    { stStop with
      last_message := chars "the cat",
      message_history := [chars "the cat"] } (by decide)

/-!
## Claim C4
-/

/-- C4.  Nested-dialog evaluation stops after the first table entry regardless
of outcome (the result is insensitive to every later entry); for that entry a
child response needs the history entry two turns back to equal the parent
trigger textually (when the parent trigger does not match `last_message`,
anything else yields no nested response); and on the concrete two-turn
scenario — parent `p`, child `c` — turn 1 `p` then turn 2 `c` returns the
child response `d`, while turn 2 alone returns the fallback, not `d`.  (All
alternative lists involved are singletons, so `defChoice` agrees with any
faithful `random.choice`.) -/
theorem claim_C4 :
    (∀ (choice : List Str → Str) (st : YoozState) (cleaned : Str)
        (e : Str × NestedData) (rest : List (Str × NestedData)),
      processNested choice { st with nested_messages := e :: rest } cleaned =
        processNested choice { st with nested_messages := [e] } cleaned) ∧
    (∀ (choice : List Str → Str) (st : YoozState) (cleaned pt : Str)
        (nd : NestedData) (rest : List (Str × NestedData)),
      st.nested_messages = (pt, nd) :: rest →
      (regexMatch st.categories pt st.last_message).isSome = false →
      (st.message_history.length < 2 ∨
        st.message_history.get? (st.message_history.length - 2) ≠ some pt) →
      processNested choice st cleaned = (none, st.last_message)) ∧
    nestTurn1.toOption.map Prod.fst = some (chars "q") ∧
    (get_response defChoice stNest2 (chars "c")).toOption.map Prod.fst =
      some (chars "d") ∧
    (get_response defChoice stNest (chars "c")).toOption.map Prod.fst =
      some fallbackPhrase ∧
    fallbackPhrase ≠ chars "d" := by
  refine ⟨?_, ?_, by decide, by decide, by decide, by decide⟩
  · intro choice st cleaned e rest
    obtain ⟨pt, nd⟩ := e
    rfl
  · intro choice st cleaned pt nd rest h1 h2 h3
    unfold processNested
    rw [h1]
    dsimp only
    rw [if_neg (by simp [h2])]
    rw [if_neg ?_]
    · rcases h3 with h3 | h3
      · intro hcon
        exact absurd hcon.1 (by omega)
      · intro hcon
        exact absurd hcon.2 h3

/-- C4, witness: the only-when part applied at a concrete first-turn state
(no prior history), showing no child response fires. -/
theorem claim_C4_witness :
    processNested defChoice { stNest with last_message := chars "z" } (chars "c") =
      (none, ({ stNest with last_message := chars "z" } : YoozState).last_message) :=
  claim_C4.2.1 defChoice { stNest with last_message := chars "z" } (chars "c")
    (chars "p") ⟨[chars "q"], [(chars "c", [chars "d"])]⟩ [] (by decide) (by decide)
    (Or.inl (by decide))

/-!
## Claim C6
-/

theorem firstOccurIdx_spec (needle : Str) (hay : Str) (i : Nat)
    (h : firstOccurIdx needle hay = some i) :
    needle.isPrefixOf (hay.drop i) = true ∧
    ∀ j, j < i → needle.isPrefixOf (hay.drop j) = false := by
  induction hay generalizing i with
  | nil =>
    unfold firstOccurIdx at h
    by_cases hp : needle.isPrefixOf ([] : Str) = true
    · rw [if_pos hp] at h
      injection h with h0
      subst h0
      exact ⟨by simpa using hp, fun j hj => by omega⟩
    · rw [if_neg hp] at h
      exact absurd h (by simp)
  | cons c t ih =>
    unfold firstOccurIdx at h
    by_cases hp : needle.isPrefixOf (c :: t) = true
    · rw [if_pos hp] at h
      injection h with h0
      subst h0
      exact ⟨by simpa using hp, fun j hj => by omega⟩
    · rw [if_neg hp] at h
      cases hrec : firstOccurIdx needle t with
      | none => rw [hrec] at h; exact absurd h (by simp)
      | some i' =>
        rw [hrec] at h
        simp only [Option.map] at h
        injection h with h0
        subst h0
        obtain ⟨h1, h2⟩ := ih i' hrec
        refine ⟨by simpa using h1, fun j hj => ?_⟩
        cases j with
        | zero =>
          simp only [List.drop_zero]
          exact Bool.not_eq_true _ ▸ (by simpa using hp)
        | succ j' => simpa using h2 j' (by omega)

/-- C6.  A rule fires exactly when its trigger occurs in the current response
and `rules_value ≤ rule.threshold`; firing splices a space and the rule's
text immediately after the FIRST occurrence of the trigger (`firstOccurIdx`
really is the first occurrence); the fold visits the rules in registration
order, each step re-reading the mutated text; and an earlier injection can
introduce the trigger of a later rule (cascading), shown concretely:
`ab`→insert `cd`, then `cd`→insert `ef`, starting from `ab`, produces
`ab cd ef` although `cd` does not occur in the original response — while with
the rules in the opposite order the second rule never fires, and a maturity
level above the threshold blocks firing. -/
theorem claim_C6 :
    (∀ (rv : ℚ) (r : Rule) (resp : Str) (i : Nat),
      firstOccurIdx r.trigger resp = some i →
      (r.trigger.isPrefixOf (resp.drop i) = true ∧
        ∀ j, j < i → r.trigger.isPrefixOf (resp.drop j) = false) ∧
      (rv ≤ r.rule →
        injectOne rv resp r =
          resp.take (i + r.trigger.length) ++ ' ' :: r.response ++
            resp.drop (i + r.trigger.length)) ∧
      (¬ rv ≤ r.rule → injectOne rv resp r = resp)) ∧
    (∀ (rv : ℚ) (r : Rule) (resp : Str),
      containsSub r.trigger resp = false → injectOne rv resp r = resp) ∧
    (∀ (rv : ℚ) (r : Rule) (rs : List Rule) (resp : Str),
      injectRules rv (r :: rs) resp = injectRules rv rs (injectOne rv resp r)) ∧
    injectRules 0 [⟨1, chars "ab", chars "cd"⟩, ⟨1, chars "cd", chars "ef"⟩]
      (chars "ab") = chars "ab cd ef" ∧
    containsSub (chars "cd") (chars "ab") = false ∧
    injectRules 0 [⟨1, chars "cd", chars "ef"⟩, ⟨1, chars "ab", chars "cd"⟩]
      (chars "ab") = chars "ab cd" ∧
    injectRules 2 [⟨1, chars "ab", chars "cd"⟩] (chars "ab") = chars "ab" := by
  refine ⟨?_, ?_, fun rv r rs resp => rfl, by decide, by decide, by decide, by decide⟩
  · intro rv r resp i h
    refine ⟨firstOccurIdx_spec r.trigger resp i h, fun hle => ?_, fun hgt => ?_⟩
    · unfold injectOne
      rw [if_pos (show containsSub r.trigger resp = true by simp [containsSub, h]),
        if_pos hle, h]
      rfl
    · unfold injectOne
      rw [if_pos (show containsSub r.trigger resp = true by simp [containsSub, h]),
        if_neg hgt]
  · intro rv r resp h
    unfold injectOne
    rw [if_neg (by simp [h])]

/-- C6, witness: the firing characterization applied at a concrete rule,
response and occurrence index. -/
theorem claim_C6_witness :
    ((chars "b").isPrefixOf ((chars "abc").drop 1) = true ∧
      ∀ j, j < 1 → (chars "b").isPrefixOf ((chars "abc").drop j) = false) ∧
    ((0 : ℚ) ≤ 1 →
      injectOne 0 (chars "abc") ⟨1, chars "b", chars "X"⟩ =
        (chars "abc").take 2 ++ ' ' :: chars "X" ++ (chars "abc").drop 2) ∧
    (¬ (0 : ℚ) ≤ 1 → injectOne 0 (chars "abc") ⟨1, chars "b", chars "X"⟩ = chars "abc") :=
  claim_C6.1 0 ⟨1, chars "b", chars "X"⟩ (chars "abc") 1 (by decide)

/-!
## Claim C10
-/

/-- C10.  With any variable store mapping `name` to the EMPTY string (present
but falsy), the variable pass renders the sentinel, not the stored value: the
lookup tests truthiness, not presence. -/
theorem claim_C10 :
    (∀ defs mem : List (Str × Str), lookupA mem (chars "name") = some [] →
      resolveResponse defs mem [] (chars "=name") = missingFor (chars "name")) ∧
    (∀ defs mem : List (Str × Str), lookupA mem (chars "name") = some [] →
      resolveResponse defs mem [] (chars "hi =name") =
        chars "hi " ++ missingFor (chars "name")) ∧
    missingFor (chars "name") = chars "\x7bmissing:name\x7d" := by
  refine ⟨?_, ?_, by decide⟩
  · intro defs mem h
    unfold resolveResponse
    rw [show replaceStars [] (chars "=name") = chars "=name" from rfl,
      show subVarColon mem (chars "=name") = chars "=name" from rfl,
      show subVarPlain mem (chars "=name") =
        lookupVarRepl mem (chars "name") ++ [] from rfl,
      List.append_nil,
      show lookupVarRepl mem (chars "name") = missingFor (chars "name") from by
        unfold lookupVarRepl; rw [h]; simp]
    rfl
  · intro defs mem h
    unfold resolveResponse
    rw [show replaceStars [] (chars "hi =name") = chars "hi =name" from rfl,
      show subVarColon mem (chars "hi =name") = chars "hi =name" from rfl,
      show subVarPlain mem (chars "hi =name") =
        chars "hi " ++ (lookupVarRepl mem (chars "name") ++ []) from rfl,
      List.append_nil,
      show lookupVarRepl mem (chars "name") = missingFor (chars "name") from by
        unfold lookupVarRepl; rw [h]; simp]
    rfl

/-- C10, witness: applied at the one-entry store mapping `name` to the empty
string. -/
theorem claim_C10_witness :
    resolveResponse [] [(chars "name", [])] [] (chars "=name") =
      missingFor (chars "name") :=
  claim_C10.1 [] [(chars "name", [])] (by decide)

/-!
## Claim C5
-/

theorem subDefF_no_hash (defs : List (Str × Str)) (s : Str) (fu : Nat)
    (h : '#' ∉ s) (hfu : s.length ≤ fu) : subDefF defs fu s = s := by
  induction s generalizing fu with
  | nil => cases fu <;> rfl
  | cons c t ih =>
    have hc : c ≠ '#' := fun hx => h (hx ▸ List.mem_cons_self c t)
    have ht : '#' ∉ t := fun hx => h (List.mem_cons_of_mem c hx)
    cases fu with
    | zero => simp at hfu
    | succ f =>
      show subDefF defs (f + 1) (c :: t) = c :: t
      unfold subDefF
      rw [if_neg hc, ih f ht (by simpa using hfu)]

/-- The pass `subDef` leaves a `#`-free string unchanged. -/
theorem subDef_no_hash (defs : List (Str × Str)) (s : Str) (h : '#' ∉ s) :
    subDef defs s = s := subDefF_no_hash defs s (s.length + 1) h (by omega)

/-- C5, counterexample.  The claim says `=key` is replaced by the stored
variable value IF PRESENT, else the sentinel.  With the store mapping `k` to
the (present) empty string, the template `=k` renders the sentinel
`\x7bmissing:k\x7d`, not the stored value: the source tests the value's
truthiness, not the key's presence. -/
theorem claim_C5_counterexample :
    resolveResponse [] [(chars "k", [])] [] (chars "=k") = missingFor (chars "k") ∧
    lookupA [(chars "k", ([] : Str))] (chars "k") = some [] ∧
    missingFor (chars "k") ≠ [] := by
  refine ⟨by decide, by decide, by decide⟩

/-- C5, amended.  Response resolution applies exactly three substitution
passes, each once, in the fixed order positional, then variable, then
definition: every `*i` is replaced by the i-th capture trimmed; every `=key`
by the stored variable value if present AND NON-EMPTY, else the visible
sentinel `\x7bmissing:key\x7d` (never a thrown error, never silently
dropped); every `#key` by the stored definition if present, else left
unchanged.  The final conjunct shows the definition pass output is not
re-scanned by the variable pass (each pass runs exactly once). -/
theorem claim_C5_amended :
    (∀ (defs mem : List (Str × Str)) (groups : List Str) (template : Str),
      resolveResponse defs mem groups template =
        subDef defs (subVarPlain mem (subVarColon mem
          (replaceStars groups template)))) ∧
    resolveResponse [] [] [chars " x "] (chars "*1!") = chars "x!" ∧
    (∀ (defs mem : List (Str × Str)) (v : Str),
      lookupA mem (chars "name") = some v → v ≠ [] → '#' ∉ v →
      resolveResponse defs mem [] (chars "hi =name") = chars "hi " ++ v) ∧
    (∀ defs mem : List (Str × Str),
      lookupA mem (chars "name") = none →
      resolveResponse defs mem [] (chars "hi =name") =
        chars "hi " ++ missingFor (chars "name")) ∧
    (∀ defs mem : List (Str × Str),
      lookupA mem (chars "name") = some [] →
      resolveResponse defs mem [] (chars "hi =name") =
        chars "hi " ++ missingFor (chars "name")) ∧
    (∀ (defs mem : List (Str × Str)) (v : Str),
      lookupA defs (chars "city") = some v →
      resolveResponse defs mem [] (chars "I am in #city") = chars "I am in " ++ v) ∧
    (∀ defs mem : List (Str × Str),
      lookupA defs (chars "city") = none →
      resolveResponse defs mem [] (chars "I am in #city") = chars "I am in #city") ∧
    resolveResponse [(chars "d", chars "=x")] [(chars "x", chars "y")] []
      (chars "#d") = chars "=x" := by
  refine ⟨fun defs mem groups template => rfl, by decide, ?_, ?_, ?_, ?_, ?_, by decide⟩
  · intro defs mem v h hv hnh
    unfold resolveResponse
    rw [show replaceStars [] (chars "hi =name") = chars "hi =name" from rfl,
      show subVarColon mem (chars "hi =name") = chars "hi =name" from rfl,
      show subVarPlain mem (chars "hi =name") =
        chars "hi " ++ (lookupVarRepl mem (chars "name") ++ []) from rfl,
      List.append_nil,
      show lookupVarRepl mem (chars "name") = v from by
        unfold lookupVarRepl; rw [h]; simp [hv]]
    refine subDef_no_hash defs _ ?_
    intro hx
    rcases List.mem_append.1 hx with hx | hx
    · revert hx; decide
    · exact hnh hx
  · intro defs mem h
    unfold resolveResponse
    rw [show replaceStars [] (chars "hi =name") = chars "hi =name" from rfl,
      show subVarColon mem (chars "hi =name") = chars "hi =name" from rfl,
      show subVarPlain mem (chars "hi =name") =
        chars "hi " ++ (lookupVarRepl mem (chars "name") ++ []) from rfl,
      List.append_nil,
      show lookupVarRepl mem (chars "name") = missingFor (chars "name") from by
        unfold lookupVarRepl; rw [h]]
    rfl
  · intro defs mem h
    unfold resolveResponse
    rw [show replaceStars [] (chars "hi =name") = chars "hi =name" from rfl,
      show subVarColon mem (chars "hi =name") = chars "hi =name" from rfl,
      show subVarPlain mem (chars "hi =name") =
        chars "hi " ++ (lookupVarRepl mem (chars "name") ++ []) from rfl,
      List.append_nil,
      show lookupVarRepl mem (chars "name") = missingFor (chars "name") from by
        unfold lookupVarRepl; rw [h]; simp]
    rfl
  · intro defs mem v h
    unfold resolveResponse
    rw [show replaceStars [] (chars "I am in #city") = chars "I am in #city" from rfl,
      show subVarColon mem (chars "I am in #city") = chars "I am in #city" from rfl,
      show subVarPlain mem (chars "I am in #city") = chars "I am in #city" from rfl,
      show subDef defs (chars "I am in #city") =
        chars "I am in " ++
          ((lookupA defs (chars "city")).getD ('#' :: chars "city") ++ []) from rfl,
      h, List.append_nil]
    rfl
  · intro defs mem h
    unfold resolveResponse
    rw [show replaceStars [] (chars "I am in #city") = chars "I am in #city" from rfl,
      show subVarColon mem (chars "I am in #city") = chars "I am in #city" from rfl,
      show subVarPlain mem (chars "I am in #city") = chars "I am in #city" from rfl,
      show subDef defs (chars "I am in #city") =
        chars "I am in " ++
          ((lookupA defs (chars "city")).getD ('#' :: chars "city") ++ []) from rfl,
      h, List.append_nil]
    rfl

/-- C5, witness: the variable conjuncts applied at concrete stores. -/
theorem claim_C5_witness :
    resolveResponse [] [(chars "name", chars "Ali")] [] (chars "hi =name") =
      chars "hi " ++ chars "Ali" :=
  claim_C5_amended.2.2.1 [] [(chars "name", chars "Ali")] (chars "Ali")
    (by decide) (by decide) (by decide)

/-!
## Claim C7
-/

theorem mem_pySplitWs_no_space (msg : Str) :
    ∀ w ∈ pySplitWs msg, ∀ ch ∈ w, pySpace ch = false := by
  induction msg with
  | nil => simp [pySplitWs]
  | cons c t ih =>
    intro w hw
    unfold pySplitWs at hw
    by_cases hc : pySpace c = true
    · rw [if_pos hc] at hw
      exact ih w hw
    · rw [if_neg hc] at hw
      cases hps : pySplitWs t with
      | nil =>
        rw [hps] at hw
        simp only [List.mem_singleton] at hw
        subst hw
        intro ch hch
        simp only [List.mem_singleton] at hch
        subst hch
        simpa using hc
      | cons p ps =>
        rw [hps] at hw
        cases t with
        | nil => simp [pySplitWs] at hps
        | cons d t' =>
          dsimp only at hw
          by_cases hd : pySpace d = true
          · rw [if_pos hd] at hw
            rcases List.mem_cons.1 hw with rfl | hw2
            · intro ch hch
              simp only [List.mem_singleton] at hch
              subst hch
              simpa using hc
            · exact ih w (hps ▸ hw2)
          · rw [if_neg hd] at hw
            rcases List.mem_cons.1 hw with rfl | hw2
            · intro ch hch
              rcases List.mem_cons.1 hch with rfl | hch2
              · simpa using hc
              · exact ih p (hps ▸ List.mem_cons_self p ps) ch hch2
            · exact ih w (hps ▸ List.mem_cons_of_mem p hw2)

theorem mem_joinWith_space (l : List Str) (ch : Char)
    (h : ch ∈ joinWith [' '] l) : ch = ' ' ∨ ∃ w ∈ l, ch ∈ w := by
  induction l with
  | nil => simp [joinWith] at h
  | cons p ps ih =>
    cases ps with
    | nil => exact Or.inr ⟨p, by simp, by simpa [joinWith] using h⟩
    | cons q qs =>
      rw [show joinWith [' '] (p :: q :: qs) =
          p ++ [' '] ++ joinWith [' '] (q :: qs) from by
        simp [joinWith]] at h
      rcases List.mem_append.1 h with h1 | h2
      · rcases List.mem_append.1 h1 with h3 | h4
        · exact Or.inr ⟨p, by simp, h3⟩
        · simp only [List.mem_singleton] at h4
          exact Or.inl h4
      · rcases ih h2 with h3 | ⟨w, hw, hcw⟩
        · exact Or.inl h3
        · exact Or.inr ⟨w, by simp [hw], hcw⟩

/-- The cleaned user message never contains a newline: stopword removal joins
whitespace-free tokens with single spaces. -/
theorem removeStopWords_no_newline (stops : List Str) (msg : Str) :
    '\n' ∉ removeStopWords stops msg := by
  intro h
  unfold removeStopWords at h
  rcases mem_joinWith_space _ _ h with h1 | ⟨w, hw, hcw⟩
  · exact absurd h1 (by decide)
  · have := mem_pySplitWs_no_space msg w (List.mem_filter.1 hw).1 '\n' hcw
    exact absurd this (by decide)

theorem rItemsMatchF_nil (fu : Nat) (s : Str) (h : 1 ≤ fu) :
    rItemsMatchF fu [] s = if s.isEmpty then some [] else none := by
  cases fu with
  | zero => omega
  | succ f => rfl

theorem rItemsMatchF_alts (fu : Nat) (xs : List Str) (rest : List RItem)
    (s : Str) (h : 1 ≤ fu) :
    rItemsMatchF fu (RItem.alts xs :: rest) s = tryAltsF (fu - 1) rest xs s := by
  cases fu with
  | zero => omega
  | succ f => rfl

theorem rItemsMatchF_wild (fu : Nat) (rest : List RItem) (s : Str) (h : 1 ≤ fu) :
    rItemsMatchF fu (RItem.wild :: rest) s = tryWildF (fu - 1) rest [] s := by
  cases fu with
  | zero => omega
  | succ f => rfl

/-- With no items after an alternation group, the group matches exactly the
strings that are one of its alternatives (and captures the whole string). -/
theorem tryAltsF_nil_spec (xs : List Str) (fu : Nat) (s : Str)
    (h : xs.length + 2 ≤ fu) :
    tryAltsF fu ([] : List RItem) xs s = if s ∈ xs then some [s] else none := by
  induction xs generalizing fu with
  | nil =>
    cases fu with
    | zero => omega
    | succ f => simp [tryAltsF]
  | cons x xs ih =>
    cases fu with
    | zero => omega
    | succ f =>
      rw [show tryAltsF (f + 1) ([] : List RItem) (x :: xs) s =
          (if x.isPrefixOf s then
            match rItemsMatchF f [] (s.drop x.length) with
            | some caps => some (x :: caps)
            | none => tryAltsF f [] xs s
          else tryAltsF f [] xs s) from rfl]
      by_cases hx : x.isPrefixOf s = true
      · rw [if_pos hx]
        obtain ⟨tl, rfl⟩ := List.isPrefixOf_iff_prefix.1 hx
        rw [rItemsMatchF_nil f _ (by omega), List.drop_left]
        cases tl with
        | nil =>
          simp only [List.isEmpty_nil, if_true]
          rw [if_pos (by simp)]
          simp
        | cons d tl' =>
          simp only [List.isEmpty_cons, Bool.false_eq_true, if_false]
          rw [ih f (by simp at h ⊢; omega)]
          by_cases hmem : (x ++ d :: tl') ∈ xs
          · rw [if_pos hmem, if_pos (List.mem_cons_of_mem x hmem)]
          · rw [if_neg hmem, if_neg ?_]
            intro hcon
            rcases List.mem_cons.1 hcon with heq | hcon2
            · have := congrArg List.length heq
              simp at this
            · exact hmem hcon2
      · rw [if_neg hx]
        rw [ih f (by simp at h ⊢; omega)]
        by_cases hmem : s ∈ xs
        · rw [if_pos hmem, if_pos (List.mem_cons_of_mem x hmem)]
        · rw [if_neg hmem, if_neg ?_]
          intro hcon
          rcases List.mem_cons.1 hcon with rfl | hcon2
          · exact hx (List.isPrefixOf_iff_prefix.2 (List.prefix_refl s))
          · exact hmem hcon2

/-- With no items after the lazy wildcard, the wildcard matches any
newline-free remainder and captures all of it. -/
theorem tryWildF_nil_spec (s : Str) (acc : Str) (fu : Nat)
    (hnl : '\n' ∉ s) (h : s.length + 2 ≤ fu) :
    tryWildF fu ([] : List RItem) acc s = some [acc ++ s] := by
  induction s generalizing acc fu with
  | nil =>
    cases fu with
    | zero => omega
    | succ f =>
      cases f with
      | zero => omega
      | succ f' =>
        rw [show tryWildF (f' + 1 + 1) ([] : List RItem) acc [] = some [acc] from rfl]
        simp
  | cons c t ih =>
    cases fu with
    | zero => omega
    | succ f =>
      cases f with
      | zero => omega
      | succ f' =>
        rw [show tryWildF (f' + 1 + 1) ([] : List RItem) acc (c :: t) =
            (if c = '\n' then none
             else tryWildF (f' + 1) [] (acc ++ [c]) t) from rfl]
        have hc : c ≠ '\n' := fun hx => hnl (hx ▸ List.mem_cons_self c t)
        rw [if_neg hc, ih (acc ++ [c]) (f' + 1)
          (fun hx => hnl (List.mem_cons_of_mem c hx)) (by simp at h ⊢; omega)]
        simp

/-- C7.  Pattern compilation replaces `&CategoryName` by an alternation of the
category's items (shown both on the generated regex text and through the
matcher: `&Colors` with Colors = red, blue accepts exactly `red` and `blue`,
for all categories: a two-category pattern is also rewritten); `*` (with
ignored trailing digits) becomes a lazy capturing group matching anything,
including the empty string, on the newline-free domain of cleaned messages
(first conjunct: cleaned messages never contain a newline); and the result is
anchored: no substring match (`redx`, `xred` are rejected for pattern `red`).
The lazy (non-greedy) capture order is visible on `*-*` against `a-b-c`. -/
theorem claim_C7 :
    (∀ (stops : List Str) (msg : Str), '\n' ∉ removeStopWords stops msg) ∧
    (∀ s : Str,
      (regexMatch [(chars "Colors", [chars "red", chars "blue"])]
        (chars "&Colors") s).isSome = true ↔
        (s = chars "red" ∨ s = chars "blue")) ∧
    (∀ s : Str, '\n' ∉ s → regexMatch [] (chars "*") s = some [s]) ∧
    (∀ s : Str, '\n' ∉ s → regexMatch [] (chars "*12") s = some [s]) ∧
    createRegexStr [(chars "Colors", [chars "red", chars "blue"])]
      (chars "&Colors") = chars "^(red|blue)$" ∧
    createRegexStr [(chars "A", [chars "a"]), (chars "B", [chars "b"])]
      (chars "&A &B") = chars "^(a) (b)$" ∧
    regexMatch [] (chars "red") (chars "redx") = none ∧
    regexMatch [] (chars "red") (chars "xred") = none ∧
    regexMatch [] (chars "red") (chars "red") = some [] ∧
    regexMatch [] (chars "*-*") (chars "a-b-c") =
      some [chars "a", chars "b-c"] := by
  refine ⟨removeStopWords_no_newline, ?_, ?_, ?_, by decide, by decide, by decide,
    by decide, by decide, by decide⟩
  · intro s
    unfold regexMatch rItemsMatch
    rw [show readItems (stripAnchors (createRegexStr
        [(chars "Colors", [chars "red", chars "blue"])] (chars "&Colors"))) =
        [RItem.alts [chars "red", chars "blue"]] from by decide]
    rw [show rItemsFuel [RItem.alts [chars "red", chars "blue"]] s =
        6 * (s.length + 2) from rfl]
    rw [rItemsMatchF_alts _ _ _ _ (by omega),
      tryAltsF_nil_spec _ _ _ (by simp; omega)]
    by_cases hmem : s ∈ [chars "red", chars "blue"]
    · rw [if_pos hmem]
      simpa using hmem
    · rw [if_neg hmem]
      simpa using hmem
  · intro s hnl
    unfold regexMatch rItemsMatch
    rw [show readItems (stripAnchors (createRegexStr [] (chars "*"))) =
        [RItem.wild] from by decide]
    rw [show rItemsFuel [RItem.wild] s = 4 * (s.length + 2) from rfl]
    rw [rItemsMatchF_wild _ _ _ (by omega),
      tryWildF_nil_spec s [] _ hnl (by omega)]
    simp
  · intro s hnl
    unfold regexMatch rItemsMatch
    rw [show readItems (stripAnchors (createRegexStr [] (chars "*12"))) =
        [RItem.wild] from by decide]
    rw [show rItemsFuel [RItem.wild] s = 4 * (s.length + 2) from rfl]
    rw [rItemsMatchF_wild _ _ _ (by omega),
      tryWildF_nil_spec s [] _ hnl (by omega)]
    simp

/-- C7, witness: the quantified conjuncts applied at concrete messages. -/
theorem claim_C7_witness :
    '\n' ∉ removeStopWords [chars "the"] (chars "the cat") ∧
    ((regexMatch [(chars "Colors", [chars "red", chars "blue"])]
        (chars "&Colors") (chars "red")).isSome = true ↔
      (chars "red" = chars "red" ∨ chars "red" = chars "blue")) ∧
    regexMatch [] (chars "*") (chars "abc") = some [chars "abc"] ∧
    regexMatch [] (chars "*12") ([] : Str) = some [[]] :=
  ⟨claim_C7.1 [chars "the"] (chars "the cat"),
   claim_C7.2.1 (chars "red"),
   claim_C7.2.2.1 (chars "abc") (by decide),
   claim_C7.2.2.2.1 [] (by decide)⟩

end Yooz
